import Mathlib

/-
  Verification development for the Wazuh RBAC authorization-context evaluator
  (framework/wazuh/rbac/auth_context.py, class RBAChecker).

  The Python code is shallowly embedded: JSON values (as produced by
  `json.loads`) become the inductive type `PyVal`; Python strings are plain
  character lists; fallible Python operations (every place where the source
  can raise TypeError / AttributeError / ValueError) return `Except PyErr`.
  Regular expressions are modelled by a small executable engine covering the
  constructs exercised by the stored rules ('^' anchors, literal characters,
  '.'  and '*'); any pattern using a construct outside that sublanguage is
  treated as a compile failure, mirroring how `check_regex` converts compile
  failures into "not a regex".
-/

set_option maxRecDepth 10000
set_option maxHeartbeats 1600000
set_option synthInstance.maxHeartbeats 400000

namespace WazuhRBAC

/-- Python strings, as plain character lists (Unicode code points). -/
abbrev Str := List Char

/-- Python exceptions that the embedded code can raise. -/
inductive PyErr where
  | typeError
  | attributeError
  | valueError
deriving DecidableEq

/-- JSON values as produced by `json.loads`: dict / list / str / int / bool /
None.  Mapping keys are strings (JSON object keys).  Floats are outside the
model (no claim mentions them). -/
inductive PyVal where
  | str : Str → PyVal
  | int : Int → PyVal
  | bool : Bool → PyVal
  | none : PyVal
  | list : List PyVal → PyVal
  | dict : List (Str × PyVal) → PyVal

/-! ### Python `==` (never raises on these types; `True == 1` holds) -/

mutual
/-- Python `==` on JSON values.  Booleans compare numerically equal to the
integers 0/1, lists compare elementwise, dicts compare as key-value maps. -/
def pyEq : PyVal → PyVal → Bool
  | .str a, .str b => decide (a = b)
  | .int a, .int b => decide (a = b)
  | .int a, .bool b => decide (a = (if b then 1 else 0))
  | .bool a, .int b => decide ((if a then (1 : Int) else 0) = b)
  | .bool a, .bool b => a == b
  | .none, .none => true
  | .list xs, .list ys => pyEqList xs ys
  | .dict xs, .dict ys => decide (xs.length = ys.length) && pyEqEntries xs ys
  | _, _ => false
termination_by a _ => (sizeOf a, 0)

/-- Elementwise Python `==` on lists. -/
def pyEqList : List PyVal → List PyVal → Bool
  | [], [] => true
  | x :: xs, y :: ys => pyEq x y && pyEqList xs ys
  | _, _ => false
termination_by xs _ => (sizeOf xs, 0)

/-- Every entry of the first dict has a `==`-matching entry in the second. -/
def pyEqEntries : List (Str × PyVal) → List (Str × PyVal) → Bool
  | [], _ => true
  | (k, v) :: rest, ys => pyLookupEq k v ys && pyEqEntries rest ys
termination_by xs _ => (sizeOf xs, 1)

/-- Look up key `k` in an entry list and compare the value with `v`. -/
def pyLookupEq : Str → PyVal → List (Str × PyVal) → Bool
  | _, _, [] => false
  | k, v, (k2, v2) :: rest => if k = k2 then pyEq v v2 else pyLookupEq k v rest
termination_by _ v ys => (sizeOf v, sizeOf ys + 2)
end

/-! ### Python `<` (raises TypeError on unordered type mixes) -/

/-- Lexicographic `<` on character lists (Python string comparison by code
point). -/
def charListLt : Str → Str → Bool
  | [], [] => false
  | [], _ :: _ => true
  | _ :: _, [] => false
  | a :: as, b :: bs => if a < b then true else if b < a then false else charListLt as bs

mutual
/-- Python `<`.  Numbers (ints and bools) compare numerically, strings
lexicographically, lists lexicographically via `==`/`<` on elements; every
other combination (dicts, None, mixed types) raises TypeError — exactly the
combinations on which CPython's `sorted` blows up. -/
def pyLt : PyVal → PyVal → Except PyErr Bool
  | .str a, .str b => .ok (charListLt a b)
  | .int a, .int b => .ok (decide (a < b))
  | .int a, .bool b => .ok (decide (a < (if b then 1 else 0)))
  | .bool a, .int b => .ok (decide ((if a then (1 : Int) else 0) < b))
  | .bool a, .bool b => .ok (decide ((if a then (1 : Int) else 0) < (if b then 1 else 0)))
  | .list xs, .list ys => pyListLt xs ys
  | _, _ => .error .typeError
termination_by a _ => (sizeOf a, 0)

/-- Python list `<`: skip `==`-equal heads, then compare the first differing
elements; exhaustion makes the shorter list smaller. -/
def pyListLt : List PyVal → List PyVal → Except PyErr Bool
  | [], [] => .ok false
  | [], _ :: _ => .ok true
  | _ :: _, [] => .ok false
  | x :: xs, y :: ys => if pyEq x y then pyListLt xs ys else pyLt x y
termination_by xs _ => (sizeOf xs, 1)
end

/-- Stable insertion of `x` into an already-sorted list: `x` is placed before
the first element it is `<` than.  A failing comparison propagates, modelling
the TypeError `sorted` raises when it compares unorderable elements. -/
def pyInsert (x : PyVal) : List PyVal → Except PyErr (List PyVal)
  | [] => .ok [x]
  | y :: ys =>
    match pyLt x y with
    | .error e => .error e
    | .ok true => .ok (x :: y :: ys)
    | .ok false =>
      match pyInsert x ys with
      | .error e => .error e
      | .ok rest => .ok (y :: rest)

/-- Python `sorted` (stable comparison sort), modelled as insertion sort.
Like CPython it performs no comparison on lists of length ≤ 1 and raises
TypeError as soon as it compares a pair `<` cannot order. -/
def pySorted (xs : List PyVal) : Except PyErr (List PyVal) :=
  match xs with
  | [] => .ok []
  | x :: rest =>
    match pySorted rest with
    | .error e => .error e
    | .ok sortedRest => pyInsert x sortedRest

/-! ### Regex engine (model of `re` on the sublanguage used by stored rules) -/

/-- A single-character regex atom: `.` or a literal character. -/
inductive RAtom where
  | dot
  | lit : Char → RAtom
deriving DecidableEq

/-- A regex piece: the `^` anchor, one atom, or a starred atom. -/
inductive RPiece where
  | caret
  | once : RAtom → RPiece
  | star : RAtom → RPiece
deriving DecidableEq

/-- Left brace character (written via its code point to keep it out of
literals). -/
def lbraceChar : Char := Char.ofNat 123

/-- Right brace character. -/
def rbraceChar : Char := Char.ofNat 125

/-- Metacharacters whose constructs the engine does not model; a pattern
using one fails to compile (and `check_regex` then treats the value as a
plain string, its leniency policy for bad patterns). -/
def unsupportedMeta : List Char :=
  ['\\', '+', '?', '[', ']', '(', ')', '|', '$', lbraceChar, rbraceChar]

/-- Compile a pattern string into a piece list.  `^` may occur anywhere
(anchor), `.` matches any non-newline character, a trailing `*` stars the
preceding atom; `*` with nothing to repeat is a compile error, as in `re`. -/
def parseRe : Str → Option (List RPiece)
  | [] => some []
  | '^' :: '*' :: _ => Option.none
  | '^' :: rest => (parseRe rest).map (RPiece.caret :: ·)
  | '*' :: _ => Option.none
  | '.' :: '*' :: rest => (parseRe rest).map (RPiece.star .dot :: ·)
  | '.' :: rest => (parseRe rest).map (RPiece.once .dot :: ·)
  | c :: '*' :: rest =>
    if c ∈ unsupportedMeta then Option.none
    else (parseRe rest).map (RPiece.star (.lit c) :: ·)
  | c :: rest =>
    if c ∈ unsupportedMeta then Option.none
    else (parseRe rest).map (RPiece.once (.lit c) :: ·)

/-- Does an atom match one character? (`.` excludes newline, no DOTALL.) -/
def atomMatch : RAtom → Char → Bool
  | .dot, c => decide (c ≠ '\n')
  | .lit a, c => a == c

/-- Core matcher: does the piece list match a prefix of `s`?  The Bool flag
records whether we are still at position 0 (for `^`). -/
def rmatchAux : List RPiece → Str → Bool → Bool
  | [], _, _ => true
  | .caret :: ps, s, atStart => atStart && rmatchAux ps s atStart
  | .once _ :: _, [], _ => false
  | .once a :: ps, c :: s, _ => atomMatch a c && rmatchAux ps s false
  | .star a :: ps, s, atStart =>
    rmatchAux ps s atStart ||
      (match s with
       | [] => false
       | c :: s2 => atomMatch a c && rmatchAux (.star a :: ps) s2 false)
termination_by ps s _ => (s.length, ps.length)

/-- `re.Pattern.match`: true iff the pattern matches at the start of `s`
(a prefix suffices, as for `re.match`). -/
def rmatch (prog : List RPiece) (s : Str) : Bool :=
  rmatchAux prog s true

/-- A compiled pattern: its source text plus the compiled program
(`re.compile(x).pattern` is `source`). -/
structure CompiledRe where
  source : Str
  prog : List RPiece
deriving DecidableEq

/-- `RBAChecker.check_regex`: a value is a regex literal iff it is a string
starting with the two-character marker `r'`; the marker and the final two
characters are stripped (`expression[2:-2]`) and the remainder compiled; any
compile failure, or a non-string, yields "not a regex" (`False`). -/
def check_regex : PyVal → Option CompiledRe
  | .str ('r' :: '\'' :: rest) =>
    let src := rest.take (rest.length - 2)
    match parseRe src with
    | some prog => some ⟨src, prog⟩
    | Option.none => Option.none
  | _ => Option.none

/-- `regex.match(value)`: matching a compiled pattern against a non-string
raises TypeError. -/
def reMatchVal (re : CompiledRe) (v : PyVal) : Except PyErr Bool :=
  match v with
  | .str s => .ok (rmatch re.prog s)
  | _ => .error .typeError

/-! ### Mode strings and operator tables -/

/-- The string "AND". -/
def sAND : Str := ['A', 'N', 'D']
/-- The string "OR". -/
def sOR : Str := ['O', 'R']
/-- The string "NOT". -/
def sNOT : Str := ['N', 'O', 'T']
/-- The string "MATCH". -/
def sMATCH : Str := ['M', 'A', 'T', 'C', 'H']
/-- The string "MATCH$". -/
def sMATCHD : Str := ['M', 'A', 'T', 'C', 'H', '$']
/-- The string "FIND". -/
def sFIND : Str := ['F', 'I', 'N', 'D']
/-- The string "FIND$". -/
def sFINDD : Str := ['F', 'I', 'N', 'D', '$']

/-- `RBAChecker._logical_operators`. -/
def logical_operators : List Str := [sAND, sOR, sNOT]

/-- `RBAChecker._functions`. -/
def functions : List Str := [sMATCH, sMATCHD, sFIND, sFINDD]

/-- `RBAChecker.set_mode`: FIND becomes MATCH, FIND$ becomes MATCH$, any
other mode string passes through unchanged. -/
def set_mode (mode : Str) : Str :=
  if mode = sFIND then sMATCH else if mode = sFINDD then sMATCHD else mode

/-! ### `process_lists` -/

/-- One inner-loop body step of `process_lists`: test rule element `v`
against context element `value`, by regex when `v` is a regex literal and by
Python `==` otherwise.  Matching a regex against a non-string context element
raises TypeError. -/
def pairTest (v value : PyVal) : Except PyErr Bool :=
  match check_regex v with
  | some re => reMatchVal re value
  | Option.none => .ok (pyEq value v)

/-- The early-return test of `process_lists`: under MATCH return once the
counter equals `len(role_chunk)`; under MATCH$ once it equals both lengths;
under any other mode string never. -/
def plCheck (mode : Str) (counter lenR lenA : Nat) : Bool :=
  if mode = sMATCH then decide (counter = lenR)
  else if mode = sMATCHD then decide (counter = lenA) && decide (counter = lenR)
  else false

/-- Inner loop of `process_lists` (`for v in role_chunk`), carrying the
running counter.  `.inl 1` is the early `return 1`, `.inr c` means the loop
finished with counter `c`. -/
def plInner (mode : Str) (lenR lenA : Nat) (value : PyVal) :
    List PyVal → Nat → Except PyErr (Sum Nat Nat)
  | [], counter => .ok (.inr counter)
  | v :: vs, counter =>
    match pairTest v value with
    | .error e => .error e
    | .ok hit =>
      if plCheck mode (if hit then counter + 1 else counter) lenR lenA
      then .ok (.inl 1)
      else plInner mode lenR lenA value vs (if hit then counter + 1 else counter)

/-- Outer loop of `process_lists` (`for index, value in enumerate(auth_context)`). -/
def plOuter (mode : Str) (role_chunk : List PyVal) (lenR lenA : Nat) :
    List PyVal → Nat → Except PyErr Nat
  | [], _ => .ok 0
  | value :: rest, counter =>
    match plInner mode lenR lenA value role_chunk counter with
    | .error e => .error e
    | .ok (.inl r) => .ok r
    | .ok (.inr c) => plOuter mode role_chunk lenR lenA rest c

/-- `RBAChecker.process_lists`: the double loop over the context list and the
rule list with a single global counter; returns 1 on the early-return
condition for the mode, else 0. -/
def process_lists (role_chunk auth_context : List PyVal) (mode : Str) : Except PyErr Nat :=
  plOuter mode role_chunk role_chunk.length auth_context.length auth_context 0

/-! ### `preprocess_to_list` and the leaf branch of `match_item` -/

/-- Sort a chunk when it is a list, pass anything else through (one half of
`preprocess_to_list`). -/
def sortIfList (v : PyVal) : Except PyErr PyVal :=
  match v with
  | .list xs =>
    match pySorted xs with
    | .error e => .error e
    | .ok s => .ok (.list s)
  | other => .ok other

/-- `RBAChecker.preprocess_to_list`: sorts the role chunk, then the context
chunk, when they are lists. -/
def preprocess_to_list (role_chunk auth_chunk : PyVal) : Except PyErr (PyVal × PyVal) :=
  match sortIfList role_chunk with
  | .error e => .error e
  | .ok r =>
    match sortIfList auth_chunk with
    | .error e => .error e
    | .ok a => .ok (r, a)

/-- The `for context in auth_context: if regex.match(context): return 1` loop
in the leaf branch of `match_item`. -/
def miRegexScan (re : CompiledRe) : List PyVal → Except PyErr Bool
  | [] => .ok false
  | c :: cs =>
    match reMatchVal re c with
    | .error e => .error e
    | .ok true => .ok true
    | .ok false => miRegexScan re cs

/-- Dictionary key lookup (`d[k]` / `k in d.keys()`), first matching entry. -/
def alookup (k : Str) : List (Str × PyVal) → Option PyVal
  | [] => Option.none
  | (k2, v) :: rest => if k = k2 then some v else alookup k rest

/-- The `if isinstance(role_chunk, str): role_chunk = [role_chunk]`
promotion. -/
def strWrap (rc : PyVal) : PyVal :=
  match rc with
  | .str s => PyVal.list [PyVal.str s]
  | other => other

/-- Tail of the leaf branch of `match_item`, after the regex block: the
equality check (against the possibly wrapped context), the promotion of a
string rule chunk to a one-element list, the list-vs-list delegation to
`process_lists`, and the final fall-through in which a dict rule chunk
matches iff it has zero keys (`validator_counter` is 0 there). -/
def miLeafRest (rc ac : PyVal) (mode : Str) : Except PyErr Bool :=
  if pyEq rc ac then .ok true
  else
    match strWrap rc, ac with
    | .list rxs, .list axs =>
      match process_lists rxs axs mode with
      | .error e => .error e
      | .ok r => .ok (decide (r ≠ 0))
    | .dict es, _ => .ok (decide (es.length = 0))
    | _, _ => .ok false

/-! ### `match_item` -/

mutual
/-- `RBAChecker.match_item`.  Dict-vs-dict recurses key by key, counting
successes (a regex-literal key is matched against every context key, and a
verbatim key hit adds one more recursive match); the mapping succeeds iff the
count equals the number of rule keys.  Any other shape pair takes the leaf
branch: sort lists, try the rule chunk as a regex literal against the
(wrapped) context, then Python equality, then `process_lists`. -/
def match_item (role_chunk auth_context : PyVal) (mode : Str) : Except PyErr Bool :=
  match role_chunk, auth_context with
  | .dict rentries, .dict aentries =>
    match miEntries rentries aentries mode with
    | .error e => .error e
    | .ok counter => .ok (decide (counter = rentries.length))
  | rc0, ac0 =>
    match preprocess_to_list rc0 ac0 with
    | .error e => .error e
    | .ok (rc, ac) =>
      match check_regex rc with
      | some re =>
        -- `if not isinstance(auth_context, list): auth_context = [auth_context]`
        let ac2 := match ac with
          | .list _ => ac
          | other => PyVal.list [other]
        let xs := match ac2 with
          | .list xs => xs
          | _ => []
        match miRegexScan re xs with
        | .error e => .error e
        | .ok true => .ok true
        | .ok false => miLeafRest rc ac2 mode
      | Option.none => miLeafRest rc ac mode
termination_by (sizeOf role_chunk, 0)

/-- The `for key_rule, value_rule in role_chunk.items()` loop of
`match_item`, returning the accumulated `validator_counter`. -/
def miEntries : List (Str × PyVal) → List (Str × PyVal) → Str → Except PyErr Nat
  | [], _, _ => .ok 0
  | (k, v) :: rest, aentries, mode =>
    match ((match check_regex (.str k) with
           | some re => miRegexKeys re v aentries mode
           | Option.none => .ok 0) : Except PyErr Nat) with
    | .error e => .error e
    | .ok c1 =>
      match ((match alookup k aentries with
             | some av =>
               match match_item v av mode with
               | .error e => .error e
               | .ok b => .ok (if b then 1 else 0)
             | Option.none => .ok 0) : Except PyErr Nat) with
      | .error e => .error e
      | .ok c2 =>
        match miEntries rest aentries mode with
        | .error e => .error e
        | .ok c3 => .ok (c1 + c2 + c3)
termination_by rentries _ _ => (sizeOf rentries, 1)

/-- The `for key_auth in auth_context.keys(): if regex.match(key_auth)` loop
for one regex-literal rule key, accumulating recursive successes. -/
def miRegexKeys (re : CompiledRe) (v : PyVal) :
    List (Str × PyVal) → Str → Except PyErr Nat
  | [], _ => .ok 0
  | (ka, va) :: arest, mode =>
    let hd : Except PyErr Nat :=
      if rmatch re.prog ka then
        match match_item v va mode with
        | .error e => .error e
        | .ok b => .ok (if b then 1 else 0)
      else .ok 0
    match hd with
    | .error e => .error e
    | .ok c1 =>
      match miRegexKeys re v arest mode with
      | .error e => .error e
      | .ok c2 => .ok (c1 + c2)
termination_by aentries _ => (sizeOf v, sizeOf aentries + 2)
end

/-! ### `find_item` -/

mutual
/-- `RBAChecker.find_item`: map the mode through `set_mode`, try `match_item`
at the root, then walk the context: for every dict value try `match_item`,
recurse into dict values, and into dict elements of list values.  Iterating
`.items()` on a non-dict context raises AttributeError. -/
def find_item (role_chunk auth_context : PyVal) (mode : Str) : Except PyErr Bool :=
  match match_item role_chunk auth_context (set_mode mode) with
  | .error e => .error e
  | .ok true => .ok true
  | .ok false =>
    match auth_context with
    | .dict entries => fiEntries role_chunk entries (set_mode mode)
    | _ => .error .attributeError
termination_by (sizeOf auth_context, 0)

/-- The `for key, value in auth_context.items()` loop of `find_item`. -/
def fiEntries (role_chunk : PyVal) :
    List (Str × PyVal) → Str → Except PyErr Bool
  | [], _ => .ok false
  | (_, v) :: rest, mode =>
    match match_item role_chunk v mode with
    | .error e => .error e
    | .ok true => .ok true
    | .ok false =>
      match v with
      | .dict des =>
        match find_item role_chunk (.dict des) mode with
        | .error e => .error e
        | .ok true => .ok true
        | .ok false => fiEntries role_chunk rest mode
      | .list xs =>
        match fiList role_chunk xs mode with
        | .error e => .error e
        | .ok true => .ok true
        | .ok false => fiEntries role_chunk rest mode
      | _ => fiEntries role_chunk rest mode
termination_by entries _ => (sizeOf entries, 1)

/-- The `for v in value: if isinstance(v, dict)` loop of `find_item`,
recursing only into dict elements of a list value. -/
def fiList (role_chunk : PyVal) : List PyVal → Str → Except PyErr Bool
  | [], _ => .ok false
  | v :: rest, mode =>
    match v with
    | .dict des =>
      match find_item role_chunk (.dict des) mode with
      | .error e => .error e
      | .ok true => .ok true
      | .ok false => fiList role_chunk rest mode
    | _ => fiList role_chunk rest mode
termination_by xs _ => (sizeOf xs, 1)
end

/-! ### `check_logic_operation` and `check_rule` -/

/-- Python `len`: defined on strings, lists and dicts; raises TypeError on
numbers, booleans and None. -/
def pyLen : PyVal → Except PyErr Nat
  | .str s => .ok s.length
  | .list xs => .ok xs.length
  | .dict es => .ok es.length
  | _ => .error .typeError

/-- `RBAChecker.check_logic_operation`: AND yields True when the counter
equals `len(rule_value)` (else no verdict), OR yields True when the counter
is positive (else no verdict), NOT always yields a verdict — False exactly
when the counter equals `len(rule_value)`.  Unknown keys yield no verdict.
`len` of a number-shaped operand raises TypeError. -/
def check_logic_operation (rule_key : Str) (rule_value : PyVal)
    (validator_counter : Nat) : Except PyErr (Option Bool) :=
  if rule_key = sAND then
    match pyLen rule_value with
    | .error e => .error e
    | .ok n => .ok (if validator_counter = n then some true else Option.none)
  else if rule_key = sOR then
    .ok (if 0 < validator_counter then some true else Option.none)
  else if rule_key = sNOT then
    match pyLen rule_value with
    | .error e => .error e
    | .ok n => .ok (some (decide (¬ validator_counter = n)))
  else .ok Option.none

mutual
/-- `RBAChecker.check_rule`: walk the rule's top-level keys in order.  A
logical-operator key gathers its operands (a list of rule nodes, one dict
node, or — for any other shape — a zero counter), asks
`check_logic_operation` for a verdict, and returns that verdict as soon as it
is a bool (including False, for NOT).  A function key runs
`match_item`/`find_item` against the checker's authorization context and
returns on success only.  Iterating a non-dict rule raises AttributeError. -/
def check_rule (authCtx : PyVal) (rule : PyVal) : Except PyErr Bool :=
  match rule with
  | .dict entries => crEntries authCtx entries
  | _ => .error .attributeError
termination_by (sizeOf rule, 0)

/-- The `for rule_key, rule_value in rule.items()` loop of `check_rule`. -/
def crEntries (authCtx : PyVal) : List (Str × PyVal) → Except PyErr Bool
  | [] => .ok false
  | (k, v) :: rest =>
    if k ∈ logical_operators then
      match crOperand authCtx v with
      | .error e => .error e
      | .ok counter =>
        match check_logic_operation k v counter with
        | .error e => .error e
        | .ok (some b) => .ok b
        | .ok Option.none => crEntries authCtx rest
    else if k ∈ functions then
      if k = sMATCH ∨ k = sMATCHD then
        match match_item v authCtx k with
        | .error e => .error e
        | .ok true => .ok true
        | .ok false => crEntries authCtx rest
      else
        match find_item v authCtx k with
        | .error e => .error e
        | .ok true => .ok true
        | .ok false => crEntries authCtx rest
    else crEntries authCtx rest
termination_by entries => (sizeOf entries, 1)

/-- The `validator_counter` accumulation for a logical-operator key: sum the
recursive results over a list operand, take the single recursive result for a
dict operand, and leave the counter at 0 for any other operand shape. -/
def crOperand (authCtx : PyVal) (v : PyVal) : Except PyErr Nat :=
  match v with
  | .list xs => crSum authCtx xs
  | .dict des =>
    match check_rule authCtx (.dict des) with
    | .error e => .error e
    | .ok b => .ok (if b then 1 else 0)
  | _ => .ok 0
termination_by (sizeOf v, 2)

/-- The `for element in rule_value: validator_counter += self.check_rule(element)`
loop for a list-shaped logical operand. -/
def crSum (authCtx : PyVal) : List PyVal → Except PyErr Nat
  | [] => .ok 0
  | x :: xs =>
    match check_rule authCtx x with
    | .error e => .error e
    | .ok b =>
      match crSum authCtx xs with
      | .error e => .error e
      | .ok r => .ok ((if b then 1 else 0) + r)
termination_by xs => (sizeOf xs, 1)
end

/-! ### `json.loads` (model of the stdlib collaborator)

The parser models `json.loads` on the fragment the rules use: objects,
arrays, strings without escape sequences, integers, `true`/`false`/`null`,
with the usual whitespace; floats and string escapes are outside the model.
Parse failure is `ValueError` (`json.JSONDecodeError`), and calling it on a
non-string raises TypeError. -/

/-- JSON whitespace. -/
def isJsonWs (c : Char) : Bool :=
  decide (c = ' ') || decide (c = '\t') || decide (c = '\n') || decide (c = '\r')

/-- Drop leading JSON whitespace. -/
def jskip : Str → Str
  | [] => []
  | c :: r => if isJsonWs c then jskip r else c :: r

/-- Scan a JSON string body after the opening quote: plain characters up to
the closing quote; escapes and unterminated strings are outside the model /
an error. -/
def jstrScan : Str → Except PyErr (Str × Str)
  | [] => .error .valueError
  | c :: r =>
    if c = '\\' then .error .valueError
    else if c = '"' then .ok ([], r)
    else
      match jstrScan r with
      | .error e => .error e
      | .ok (t, rest) => .ok (c :: t, rest)

/-- Leading decimal digits of a string. -/
def spanDigits : Str → (List Char × Str)
  | [] => ([], [])
  | c :: r =>
    if c.isDigit then
      let (ds, rest) := spanDigits r
      (c :: ds, rest)
    else ([], c :: r)

/-- Numeric value of a digit list. -/
def natOfDigits (ds : List Char) : Nat :=
  ds.foldl (fun a c => a * 10 + (c.toNat - 48)) 0

/-- Parse an integer literal (`neg` says a minus sign was consumed). -/
def jint (neg : Bool) (s : Str) : Except PyErr (PyVal × Str) :=
  match spanDigits s with
  | ([], _) => .error .valueError
  | (ds, rest) =>
    .ok (.int (if neg then -(natOfDigits ds : Int) else (natOfDigits ds : Int)), rest)

/-- Insert a key into an object under construction, Python-style: a repeated
key keeps its position and takes the last value. -/
def jobjAdd : List (Str × PyVal) → Str → PyVal → List (Str × PyVal)
  | [], k, v => [(k, v)]
  | (k2, v2) :: rest, k, v =>
    if k2 = k then (k2, v) :: rest else (k2, v2) :: jobjAdd rest k v

mutual
/-- Fueled JSON value parser; the fuel only bounds nesting/iteration and is
chosen large enough at the `jparse` wrapper. -/
def jval : Nat → Str → Except PyErr (PyVal × Str)
  | 0, _ => .error .valueError
  | fuel + 1, s =>
    match jskip s with
    | [] => .error .valueError
    | c :: r =>
      if c = lbraceChar then
        match jskip r with
        | [] => .error .valueError
        | d :: r2 =>
          if d = rbraceChar then .ok (.dict [], r2)
          else jobjItems fuel (d :: r2) []
      else if c = '"' then
        match jstrScan r with
        | .error e => .error e
        | .ok (t, rest) => .ok (.str t, rest)
      else if c = '[' then
        match jskip r with
        | ']' :: r2 => .ok (.list [], r2)
        | r2 => jarrItems fuel r2 []
      else if c = '-' then jint true r
      else if c.isDigit then jint false (c :: r)
      else
        match c :: r with
        | 'n' :: 'u' :: 'l' :: 'l' :: r2 => .ok (.none, r2)
        | 't' :: 'r' :: 'u' :: 'e' :: r2 => .ok (.bool true, r2)
        | 'f' :: 'a' :: 'l' :: 's' :: 'e' :: r2 => .ok (.bool false, r2)
        | _ => .error .valueError

/-- Array items: value, then `,` to continue or `]` to finish. -/
def jarrItems : Nat → Str → List PyVal → Except PyErr (PyVal × Str)
  | 0, _, _ => .error .valueError
  | fuel + 1, s, acc =>
    match jval fuel s with
    | .error e => .error e
    | .ok (v, rest) =>
      match jskip rest with
      | ',' :: r2 => jarrItems fuel r2 (acc ++ [v])
      | ']' :: r2 => .ok (.list (acc ++ [v]), r2)
      | _ => .error .valueError

/-- Object items: `"key" : value`, then `,` to continue or a closing brace to
finish. -/
def jobjItems : Nat → Str → List (Str × PyVal) → Except PyErr (PyVal × Str)
  | 0, _, _ => .error .valueError
  | fuel + 1, s, acc =>
    match jskip s with
    | '"' :: r =>
      match jstrScan r with
      | .error e => .error e
      | .ok (k, r2) =>
        match jskip r2 with
        | ':' :: r3 =>
          match jval fuel r3 with
          | .error e => .error e
          | .ok (v, r4) =>
            let acc2 := jobjAdd acc k v
            match jskip r4 with
            | ',' :: r5 => jobjItems fuel r5 acc2
            | d :: r5 => if d = rbraceChar then .ok (.dict acc2, r5) else .error .valueError
            | [] => .error .valueError
        | _ => .error .valueError
    | _ => .error .valueError
end

/-- `json.loads` on a string: parse one value, allow trailing whitespace
only. -/
def jparse (s : Str) : Except PyErr PyVal :=
  match jval (4 * s.length + 8) s with
  | .error e => .error e
  | .ok (v, rest) => if jskip rest = [] then .ok v else .error .valueError

/-- `json.loads`: on a non-string argument it raises TypeError. -/
def jloads : PyVal → Except PyErr PyVal
  | .str s => jparse s
  | _ => .error .typeError

/-! ### Roles, `__init__`, `get_user_roles`, `run` -/

/-- A role record as the checker sees it: identity plus the `rule` attribute.
`rule` initially holds the stored rule text (a `.str`); `__init__` overwrites
it with the parsed value. -/
structure PyRole where
  id : Int
  name : Str
  rule : PyVal

/-- The per-role body of `__init__`: `role.rule = json.loads(role.rule)`.
The returned record is the caller's role object after the in-place update. -/
def parseRole (r : PyRole) : Except PyErr PyRole :=
  match jloads r.rule with
  | .error e => .error e
  | .ok v => .ok ⟨r.id, r.name, v⟩

/-- `__init__`'s loop over a role list. -/
def parseRoles : List PyRole → Except PyErr (List PyRole)
  | [] => .ok []
  | r :: rest =>
    match parseRole r with
    | .error e => .error e
    | .ok r2 =>
      match parseRoles rest with
      | .error e => .error e
      | .ok rest2 => .ok (r2 :: rest2)

/-- `RBAChecker.__init__(auth_context, role)` with a single (non-list) role:
parse the context text, then overwrite the role's `rule` with its parsed
value; the checker state is the parsed context plus its one-element role
list. -/
def initSingle (auth_context : PyVal) (role : PyRole) :
    Except PyErr (PyVal × List PyRole) :=
  match jloads auth_context with
  | .error e => .error e
  | .ok actx =>
    match parseRole role with
    | .error e => .error e
    | .ok r => .ok (actx, [r])

/-- `RBAChecker.__init__(auth_context, role)` with a role list: parse the
context text, then overwrite each role's `rule` in order. -/
def initList (auth_context : PyVal) (roles : List PyRole) :
    Except PyErr (PyVal × List PyRole) :=
  match jloads auth_context with
  | .error e => .error e
  | .ok actx =>
    match parseRoles roles with
    | .error e => .error e
    | .ok rs => .ok (actx, rs)

/-- `RBAChecker.get_user_roles`: the `[role.id, role.name]` pairs of the
roles whose rule checks out against the context, in role-list order. -/
def get_user_roles (authCtx : PyVal) : List PyRole → Except PyErr (List (Int × Str))
  | [] => .ok []
  | r :: rs =>
    match check_rule authCtx r.rule with
    | .error e => .error e
    | .ok b =>
      match get_user_roles authCtx rs with
      | .error e => .error e
      | .ok rest => .ok (if b then (r.id, r.name) :: rest else rest)

/-- Policy records attached to roles; only their identity matters to `run`,
so they are modelled by an id. -/
abbrev Policy := Int

/-- A Python generator object as appended by `run`:
`user_policies.append(policy for policy in rpm.get_all_policies_from_role(role[0]))`
appends the generator itself, not its elements.  `objId` is the object's
identity (generators compare by identity, so two of them are never equal),
and `pending` is the eagerly evaluated iterable the generator would walk. -/
inductive GenObj where
  | gen : (objId : Nat) → (pending : List Policy) → GenObj
deriving DecidableEq

/-- The append loop of `run`: one fresh generator object per matched role. -/
def runGens (store : Int → List Policy) : Nat → List (Int × Str) → List GenObj
  | _, [] => []
  | i, (rid, _) :: rest => GenObj.gen i (store rid) :: runGens store (i + 1) rest

/-- `RBAChecker.run`: resolve the user's roles, then build `user_policies` by
appending one generator object per role and wrap it in `set(...)`.  Because
generator objects compare by identity, the set never merges anything and
contains generators, not policy records. -/
def run (authCtx : PyVal) (roles : List PyRole) (store : Int → List Policy) :
    Except PyErr (List GenObj) :=
  match get_user_roles authCtx roles with
  | .error e => .error e
  | .ok ur => .ok (runGens store 0 ur).dedup

/-- Modelled from the spec: the intended behaviour of `run` per the spec's
"the resolver deduplicates the union before returning it to the caller" —
the deduplicated union of the policies attached to each resolved role id
(the policy store itself is the out-of-scope collaborator
`RolesPoliciesManager.get_all_policies_from_role`). -/
def run_intended (authCtx : PyVal) (roles : List PyRole)
    (store : Int → List Policy) : Except PyErr (List Policy) :=
  match get_user_roles authCtx roles with
  | .error e => .error e
  | .ok ur => .ok ((ur.map Prod.fst).flatMap store).dedup

/-! ### Specification vocabulary for the theorems -/

/-- Did a fallible boolean computation succeed with `True`? -/
def okTrue : Except PyErr Bool → Bool
  | .ok true => true
  | _ => false

/-- Did a fallible computation succeed at all? -/
def bOk : Except PyErr Bool → Bool
  | .ok _ => true
  | .error _ => false

/-- Every (context element, rule element) pair test of `process_lists` is
error-free on these two lists. -/
def pairsOk (role_chunk auth_context : List PyVal) : Bool :=
  auth_context.all (fun value => role_chunk.all (fun v => bOk (pairTest v value)))

/-- How many rule elements does one context element satisfy? -/
def hitCount (value : PyVal) (role_chunk : List PyVal) : Nat :=
  role_chunk.countP (fun v => okTrue (pairTest v value))

/-- Total number of matching (context element, rule element) pairs — the
quantity `process_lists`' single global counter accumulates. -/
def totalHits (role_chunk auth_context : List PyVal) : Nat :=
  (auth_context.map (fun value => hitCount value role_chunk)).sum

mutual
/-- No mapping anywhere in this rule fragment (descending through mapping
values, the only shape `match_item` recurses into) uses a regex-literal key. -/
def noRegexKeys : PyVal → Bool
  | .dict es => nrkEntries es
  | _ => true
termination_by v => (sizeOf v, 0)

/-- `noRegexKeys` over a mapping's entries. -/
def nrkEntries : List (Str × PyVal) → Bool
  | [] => true
  | (k, v) :: rest =>
    (check_regex (.str k)).isNone && noRegexKeys v && nrkEntries rest
termination_by es => (sizeOf es, 1)
end

/-- The nodes `find_item` can reach from a context node: the node itself,
anything reachable from a mapping value, and anything reachable from a
mapping element of a sequence (non-mapping sequence elements are not
descended into). -/
inductive Reaches : PyVal → PyVal → Prop where
  | refl (v : PyVal) : Reaches v v
  | intoDict (es : List (Str × PyVal)) (k : Str) (v n : PyVal) :
      (k, v) ∈ es → Reaches v n → Reaches (.dict es) n
  | intoList (xs : List PyVal) (es : List (Str × PyVal)) (n : PyVal) :
      PyVal.dict es ∈ xs → Reaches (.dict es) n → Reaches (.list xs) n

/-! ### Theorems for the claims -/

/-- C7, counterexample.  On the exact string of the claim,
`"r'^agent:id:.*'XX"`, the code strips the two leading and the two trailing
characters only, so the compiled pattern keeps the closing quote:
it is `^agent:id:.*'`, not `^agent:id:.*` as the claim states. -/
theorem C7_counterexample :
    (check_regex (.str ['r', '\'', '^', 'a', 'g', 'e', 'n', 't', ':', 'i', 'd', ':',
        '.', '*', '\'', 'X', 'X'])).map CompiledRe.source
      = some ['^', 'a', 'g', 'e', 'n', 't', ':', 'i', 'd', ':', '.', '*', '\'']
    ∧ (['^', 'a', 'g', 'e', 'n', 't', ':', 'i', 'd', ':', '.', '*', '\''] : Str)
      ≠ ['^', 'a', 'g', 'e', 'n', 't', ':', 'i', 'd', ':', '.', '*'] := by
  exact ⟨rfl, by decide⟩

/-- C7, amended.  With a single character after the closing quote (envelope
`r'<pattern>'X`), stripping two leading and two trailing characters yields
exactly the pattern `^agent:id:.*`; and a string that does not begin with the
two-character marker `r'` — or a non-string — is never treated as a regex. -/
theorem C7_amended :
    check_regex (.str ['r', '\'', '^', 'a', 'g', 'e', 'n', 't', ':', 'i', 'd', ':',
        '.', '*', '\'', 'X'])
      = some ⟨['^', 'a', 'g', 'e', 'n', 't', ':', 'i', 'd', ':', '.', '*'],
          [.caret, .once (.lit 'a'), .once (.lit 'g'), .once (.lit 'e'),
           .once (.lit 'n'), .once (.lit 't'), .once (.lit ':'), .once (.lit 'i'),
           .once (.lit 'd'), .once (.lit ':'), .star .dot]⟩
    ∧ (∀ s : Str, (∀ t, s ≠ 'r' :: '\'' :: t) → check_regex (.str s) = Option.none)
    ∧ (∀ v : PyVal, (∀ s, v ≠ .str s) → check_regex v = Option.none) := by
  refine ⟨rfl, ?_, ?_⟩
  · intro s h
    unfold check_regex
    split
    · next t heq =>
      exact absurd (by injection heq) (h t)
    · rfl
  · intro v h
    unfold check_regex
    split
    · rename_i t
      exact absurd rfl (h ('r' :: '\'' :: t))
    · rfl

/-- C7, witness for the amended theorem's universally quantified parts. -/
theorem C7_witness :
    check_regex (.str ['^', 'a', 'b']) = Option.none
    ∧ check_regex (.int 3) = Option.none := by
  exact ⟨C7_amended.2.1 ['^', 'a', 'b'] (by intro t h; simp at h),
    C7_amended.2.2 (.int 3) (by intro s h; cases h)⟩

/-- C10: a string that starts with the marker `r'` and has length at most 4
(`"r'"`, `"r'x"`, `"r'xy"`) slices to the empty pattern, which compiles and
matches every string at position 0 — so such a rule scalar matches any
string context value (and, via the dict loop, any context key). -/
theorem C10_empty_regex_wildcard :
    ∀ s : Str, (∃ t, s = 'r' :: '\'' :: t) → s.length ≤ 4 →
      check_regex (.str s) = some ⟨[], []⟩
      ∧ (∀ u : Str, rmatch [] u = true)
      ∧ (∀ (v : Str) (mode : Str), match_item (.str s) (.str v) mode = .ok true) := by
  rintro s ⟨t, rfl⟩ hlen
  have ht : t.length - 2 = 0 := by
    simp [List.length] at hlen
    omega
  have hc : check_regex (.str ('r' :: '\'' :: t)) = some ⟨[], []⟩ := by
    simp [check_regex, ht, parseRe]
  refine ⟨hc, fun u => by simp [rmatch, rmatchAux], fun v mode => ?_⟩
  simp [match_item, preprocess_to_list, sortIfList, hc, miRegexScan, reMatchVal,
    rmatch, rmatchAux]

/-- C10, witness: the two-character string `r'` itself acts as the universal
wildcard. -/
theorem C10_witness :
    check_regex (.str ['r', '\'']) = some ⟨[], []⟩
    ∧ match_item (.str ['r', '\'']) (.str ['a', 'g', 'e', 'n', 't']) sMATCH = .ok true := by
  refine ⟨(C10_empty_regex_wildcard ['r', '\''] ⟨[], rfl⟩ (by decide)).1, ?_⟩
  exact (C10_empty_regex_wildcard ['r', '\''] ⟨[], rfl⟩ (by decide)).2.2 ['a', 'g', 'e', 'n', 't'] sMATCH

/-- C5: the matching functions do raise.  Three failing inputs, one per
public entry point: `match_item` on two lists whose sort compares two dicts
(TypeError from `sorted`), `find_item` on a non-dict context (AttributeError
from `.items()`), and `check_rule` on an `AND` whose operand is a number
(TypeError from `len`). -/
theorem C5_failing_inputs :
    match_item (.list [.str ['x']]) (.list [.dict [], .dict []]) sMATCH = .error .typeError
    ∧ find_item (.str ['x']) (.int 5) sFIND = .error .attributeError
    ∧ check_rule (.dict []) (.dict [(sAND, .int 0)]) = .error .typeError := by
  refine ⟨?_, ?_, ?_⟩
  · simp [match_item, preprocess_to_list, sortIfList, pySorted, pyInsert, pyLt]
  · simp [find_item, set_mode, sFIND, sFINDD, sMATCH, match_item, preprocess_to_list,
      sortIfList, check_regex, miLeafRest, strWrap, pyEq]
  · simp [check_rule, crEntries, crOperand, logical_operators, functions,
      check_logic_operation, pyLen, sAND]

/-! ### Key-classification facts used when unfolding `crEntries` -/

@[simp] lemma sAND_logical : (sAND ∈ logical_operators) = True := eq_true (by decide)
@[simp] lemma sOR_logical : (sOR ∈ logical_operators) = True := eq_true (by decide)
@[simp] lemma sNOT_logical : (sNOT ∈ logical_operators) = True := eq_true (by decide)
@[simp] lemma sMATCH_not_logical : (sMATCH ∈ logical_operators) = False := eq_false (by decide)
@[simp] lemma sMATCHD_not_logical : (sMATCHD ∈ logical_operators) = False := eq_false (by decide)
@[simp] lemma sFIND_not_logical : (sFIND ∈ logical_operators) = False := eq_false (by decide)
@[simp] lemma sFINDD_not_logical : (sFINDD ∈ logical_operators) = False := eq_false (by decide)
@[simp] lemma sMATCH_function : (sMATCH ∈ functions) = True := eq_true (by decide)
@[simp] lemma sMATCHD_function : (sMATCHD ∈ functions) = True := eq_true (by decide)
@[simp] lemma sFIND_function : (sFIND ∈ functions) = True := eq_true (by decide)
@[simp] lemma sFINDD_function : (sFINDD ∈ functions) = True := eq_true (by decide)
@[simp] lemma sMATCH_matchlike : (sMATCH = sMATCH ∨ sMATCH = sMATCHD) = True := eq_true (by decide)
@[simp] lemma sMATCHD_matchlike : (sMATCHD = sMATCH ∨ sMATCHD = sMATCHD) = True := eq_true (by decide)
@[simp] lemma sFIND_not_matchlike : (sFIND = sMATCH ∨ sFIND = sMATCHD) = False := eq_false (by decide)
@[simp] lemma sFINDD_not_matchlike : (sFINDD = sMATCH ∨ sFINDD = sMATCHD) = False := eq_false (by decide)
@[simp] lemma set_mode_sFIND : set_mode sFIND = sMATCH := by decide
@[simp] lemma set_mode_sFINDD : set_mode sFINDD = sMATCHD := by decide
@[simp] lemma set_mode_sMATCH : set_mode sMATCH = sMATCH := by decide
@[simp] lemma set_mode_sMATCHD : set_mode sMATCHD = sMATCHD := by decide

/-- `set_mode` is idempotent (recursive `find_item` calls re-apply it). -/
lemma set_mode_idem (m : Str) : set_mode (set_mode m) = set_mode m := by
  by_cases h1 : m = sFIND
  · subst h1; decide
  · by_cases h2 : m = sFINDD
    · subst h2; decide
    · simp [set_mode, h1, h2]

/-- `check_logic_operation` on the three operator keys, spelt out. -/
lemma check_logic_operation_sAND (v : PyVal) (c L : Nat) (h : pyLen v = .ok L) :
    check_logic_operation sAND v c
      = .ok (if c = L then some true else Option.none) := by
  simp [check_logic_operation, h]

lemma check_logic_operation_sOR (v : PyVal) (c : Nat) :
    check_logic_operation sOR v c
      = .ok (if 0 < c then some true else Option.none) := by
  have : ¬ (sOR = sAND) := by decide
  simp [check_logic_operation, this]

lemma check_logic_operation_sNOT (v : PyVal) (c L : Nat) (h : pyLen v = .ok L) :
    check_logic_operation sNOT v c = .ok (some (decide (¬ c = L))) := by
  have h1 : ¬ (sNOT = sAND) := by decide
  have h2 : ¬ (sNOT = sOR) := by decide
  simp [check_logic_operation, h1, h2, h]

/-! ### Step lemmas for one `check_rule` loop iteration -/

/-- A logical-operator key whose operation yields a verdict returns that
verdict immediately (even `False`, which only NOT produces). -/
lemma crEntries_logical_verdict (ctx : PyVal) (k : Str) (v : PyVal)
    (rest : List (Str × PyVal)) (n : Nat) (b : Bool)
    (hk : k ∈ logical_operators) (hop : crOperand ctx v = .ok n)
    (hres : check_logic_operation k v n = .ok (some b)) :
    crEntries ctx ((k, v) :: rest) = .ok b := by
  rw [crEntries]
  simp [hk, hop, hres]

/-- A logical-operator key with no verdict falls through to the next key. -/
lemma crEntries_logical_continue (ctx : PyVal) (k : Str) (v : PyVal)
    (rest : List (Str × PyVal)) (n : Nat)
    (hk : k ∈ logical_operators) (hop : crOperand ctx v = .ok n)
    (hres : check_logic_operation k v n = .ok Option.none) :
    crEntries ctx ((k, v) :: rest) = crEntries ctx rest := by
  rw [crEntries]
  simp [hk, hop, hres]

/-- A MATCH/MATCH$ key that matches returns True immediately. -/
lemma crEntries_match_true (ctx : PyVal) (k : Str) (v : PyVal)
    (rest : List (Str × PyVal))
    (hk1 : ¬ k ∈ logical_operators) (hk2 : k ∈ functions)
    (hk3 : k = sMATCH ∨ k = sMATCHD) (h : match_item v ctx k = .ok true) :
    crEntries ctx ((k, v) :: rest) = .ok true := by
  rw [crEntries]
  simp [hk1, hk2, hk3, h]

/-- A MATCH/MATCH$ key that does not match falls through to the next key. -/
lemma crEntries_match_false (ctx : PyVal) (k : Str) (v : PyVal)
    (rest : List (Str × PyVal))
    (hk1 : ¬ k ∈ logical_operators) (hk2 : k ∈ functions)
    (hk3 : k = sMATCH ∨ k = sMATCHD) (h : match_item v ctx k = .ok false) :
    crEntries ctx ((k, v) :: rest) = crEntries ctx rest := by
  rw [crEntries]
  simp [hk1, hk2, hk3, h]

/-- A FIND/FIND$ key that finds a match returns True immediately. -/
lemma crEntries_find_true (ctx : PyVal) (k : Str) (v : PyVal)
    (rest : List (Str × PyVal))
    (hk1 : ¬ k ∈ logical_operators) (hk2 : k ∈ functions)
    (hk3 : ¬ (k = sMATCH ∨ k = sMATCHD)) (h : find_item v ctx k = .ok true) :
    crEntries ctx ((k, v) :: rest) = .ok true := by
  rw [crEntries]
  simp [hk1, hk2, hk3, h]

/-- A FIND/FIND$ key that finds nothing falls through to the next key. -/
lemma crEntries_find_false (ctx : PyVal) (k : Str) (v : PyVal)
    (rest : List (Str × PyVal))
    (hk1 : ¬ k ∈ logical_operators) (hk2 : k ∈ functions)
    (hk3 : ¬ (k = sMATCH ∨ k = sMATCHD)) (h : find_item v ctx k = .ok false) :
    crEntries ctx ((k, v) :: rest) = crEntries ctx rest := by
  rw [crEntries]
  simp [hk1, hk2, hk3, h]

/-- An unrecognized key is skipped. -/
lemma crEntries_other (ctx : PyVal) (k : Str) (v : PyVal)
    (rest : List (Str × PyVal))
    (hk1 : ¬ k ∈ logical_operators) (hk2 : ¬ k ∈ functions) :
    crEntries ctx ((k, v) :: rest) = crEntries ctx rest := by
  rw [crEntries]
  simp [hk1, hk2]

/-- `crSum` under error-free recursive evaluation counts the true results. -/
lemma crSum_ok (ctx : PyVal) :
    ∀ xs : List PyVal, (∀ x ∈ xs, bOk (check_rule ctx x) = true) →
      crSum ctx xs = .ok (xs.countP (fun x => okTrue (check_rule ctx x))) := by
  intro xs
  induction xs with
  | nil => intro _; simp [crSum]
  | cons x rest ih =>
    intro h
    have hx : bOk (check_rule ctx x) = true := h x (by simp)
    obtain ⟨b, hb⟩ : ∃ b, check_rule ctx x = .ok b := by
      cases hcr : check_rule ctx x with
      | ok b => exact ⟨b, rfl⟩
      | error e => rw [hcr] at hx; simp [bOk] at hx
    have hrest := ih (fun y hy => h y (by simp [hy]))
    rw [crSum, hb, hrest]
    cases b <;> simp [List.countP_cons, okTrue, hb, Nat.add_comm]

/-- C3, counterexample.  The rule `\x7b"AND": \x7b\x7d\x7d` has a single
operand, the empty mapping, which itself evaluates to False; by the claim AND
should then be False, but the code compares the 0/1 result count with
`len(operand)` = 0 and returns True. -/
theorem C3_counterexample :
    check_rule (.dict []) (.dict [(sAND, .dict [])]) = .ok true
    ∧ check_rule (.dict []) (.dict []) = .ok false := by
  constructor
  · simp [check_rule, crEntries, crOperand, check_logic_operation, pyLen]
  · simp [check_rule, crEntries]

/-- C3, amended.  For Sequence operands the claimed semantics holds whenever
each operand evaluates without error: AND is true iff every operand is true
(vacuously for zero operands), OR iff at least one is, NOT iff not all are.
For the single-Mapping operand shape the counter (0 or 1) is compared against
`len(operand)` — the number of keys of the operand mapping, not the operand
count 1 — so AND is true iff the 0/1 result equals the key count, OR is true
iff the operand is true, and NOT is true iff the 0/1 result differs from the
key count. -/
theorem C3_amended :
    (∀ (ctx : PyVal) (xs : List PyVal),
      (∀ x ∈ xs, bOk (check_rule ctx x) = true) →
        check_rule ctx (.dict [(sAND, .list xs)])
            = .ok (xs.all (fun x => okTrue (check_rule ctx x)))
        ∧ check_rule ctx (.dict [(sOR, .list xs)])
            = .ok (xs.any (fun x => okTrue (check_rule ctx x)))
        ∧ check_rule ctx (.dict [(sNOT, .list xs)])
            = .ok (!xs.all (fun x => okTrue (check_rule ctx x))))
    ∧ (∀ (ctx : PyVal) (des : List (Str × PyVal)) (b : Bool),
        check_rule ctx (.dict des) = .ok b →
          check_rule ctx (.dict [(sAND, .dict des)])
              = .ok (decide ((if b then 1 else 0) = des.length))
          ∧ check_rule ctx (.dict [(sOR, .dict des)]) = .ok b
          ∧ check_rule ctx (.dict [(sNOT, .dict des)])
              = .ok (decide (¬ (if b then 1 else 0) = des.length))) := by
  have hcrE : ∀ ctx : PyVal, crEntries ctx [] = .ok false := fun ctx => by rw [crEntries]
  constructor
  · intro ctx xs h
    have hsum : crOperand ctx (.list xs)
        = .ok (xs.countP (fun x => okTrue (check_rule ctx x))) := by
      rw [crOperand]; exact crSum_ok ctx xs h
    have hlen : pyLen (.list xs) = .ok xs.length := by simp [pyLen]
    have hAll : xs.all (fun x => okTrue (check_rule ctx x))
        = decide (xs.countP (fun x => okTrue (check_rule ctx x)) = xs.length) := by
      by_cases hc : xs.countP (fun x => okTrue (check_rule ctx x)) = xs.length
      · simp only [hc, decide_True]
        rw [List.all_eq_true]
        exact fun x hx => List.countP_eq_length.mp hc x hx
      · simp only [hc, decide_False]
        rcases hall : xs.all (fun x => okTrue (check_rule ctx x)) with _ | _
        · rfl
        · exact absurd (List.countP_eq_length.mpr (List.all_eq_true.mp hall)) hc
    have hAny : xs.any (fun x => okTrue (check_rule ctx x))
        = decide (0 < xs.countP (fun x => okTrue (check_rule ctx x))) := by
      by_cases hc : 0 < xs.countP (fun x => okTrue (check_rule ctx x))
      · simp only [hc, decide_True]
        rw [List.any_eq_true]
        exact List.countP_pos_iff.mp hc
      · simp only [hc, decide_False]
        rcases hany : xs.any (fun x => okTrue (check_rule ctx x)) with _ | _
        · rfl
        · exact absurd (List.countP_pos_iff.mpr (List.any_eq_true.mp hany)) hc
    refine ⟨?_, ?_, ?_⟩
    · rw [check_rule]
      by_cases hc : xs.countP (fun x => okTrue (check_rule ctx x)) = xs.length
      · rw [crEntries_logical_verdict ctx sAND _ [] _ true (by decide) hsum
          (by rw [check_logic_operation_sAND _ _ _ hlen]; simp [hc])]
        simp [hAll, hc]
      · rw [crEntries_logical_continue ctx sAND _ [] _ (by decide) hsum
          (by rw [check_logic_operation_sAND _ _ _ hlen]; simp [hc]), hcrE]
        simp [hAll, hc]
    · rw [check_rule]
      by_cases hc : 0 < xs.countP (fun x => okTrue (check_rule ctx x))
      · rw [crEntries_logical_verdict ctx sOR _ [] _ true (by decide) hsum
          (by rw [check_logic_operation_sOR]; simp [hc])]
        simp [hAny, hc]
      · rw [crEntries_logical_continue ctx sOR _ [] _ (by decide) hsum
          (by rw [check_logic_operation_sOR]; simp [hc]), hcrE]
        simp [hAny, hc]
    · rw [check_rule]
      rw [crEntries_logical_verdict ctx sNOT _ []
          _ (decide (¬ xs.countP (fun x => okTrue (check_rule ctx x)) = xs.length))
          (by decide) hsum (by rw [check_logic_operation_sNOT _ _ _ hlen])]
      by_cases hc : xs.countP (fun x => okTrue (check_rule ctx x)) = xs.length
      · simp [hAll, hc]
      · simp [hAll, hc]
  · intro ctx des b hb
    have hop : crOperand ctx (.dict des) = .ok (if b then 1 else 0) := by
      rw [crOperand, hb]
    have hlen : pyLen (.dict des) = .ok des.length := by simp [pyLen]
    refine ⟨?_, ?_, ?_⟩
    · rw [check_rule]
      by_cases hc : (if b then 1 else 0) = des.length
      · rw [crEntries_logical_verdict ctx sAND _ [] _ true (by decide) hop
          (by rw [check_logic_operation_sAND _ _ _ hlen]; simp [hc])]
        simp [hc]
      · rw [crEntries_logical_continue ctx sAND _ [] _ (by decide) hop
          (by rw [check_logic_operation_sAND _ _ _ hlen]; simp [hc]), hcrE]
        simp [hc]
    · rw [check_rule]
      cases b
      · rw [crEntries_logical_continue ctx sOR _ [] _ (by decide) hop
          (by rw [check_logic_operation_sOR]; simp), hcrE]
      · rw [crEntries_logical_verdict ctx sOR _ [] _ true (by decide) hop
          (by rw [check_logic_operation_sOR]; simp)]
    · rw [check_rule]
      rw [crEntries_logical_verdict ctx sNOT _ []
          _ (decide (¬ (if b then 1 else 0) = des.length)) (by decide) hop
          (by rw [check_logic_operation_sNOT _ _ _ hlen])]

/-- C3, witness: the amended theorem applied at zero operands (Sequence
shape) and at a one-key Mapping operand. -/
theorem C3_witness :
    check_rule (.dict []) (.dict [(sAND, .list [])]) = .ok true
    ∧ check_rule (.dict []) (.dict [(sOR, .list [])]) = .ok false
    ∧ check_rule (.dict []) (.dict [(sNOT, .list [])]) = .ok false := by
  have h := C3_amended.1 (.dict []) [] (by simp)
  exact ⟨h.1, h.2.1, h.2.2⟩

/-- C6, counterexample.  In the rule
`\x7b"NOT": [\x7b"MATCH": \x7b"a": "b"\x7d\x7d], "MATCH": \x7b"a": "b"\x7d\x7d`
against context `\x7b"a": "b"\x7d` the first key NOT evaluates to the definite
boolean False and `check_rule` returns it immediately, never trying the
second key — although that second key alone yields True. -/
theorem C6_counterexample :
    check_rule (.dict [(['a'], .str ['b'])])
        (.dict [(sNOT, .list [.dict [(sMATCH, .dict [(['a'], .str ['b'])])]]),
                (sMATCH, .dict [(['a'], .str ['b'])])])
      = .ok false
    ∧ check_rule (.dict [(['a'], .str ['b'])])
        (.dict [(sMATCH, .dict [(['a'], .str ['b'])])])
      = .ok true := by
  have hmatch : match_item (.dict [(['a'], .str ['b'])]) (.dict [(['a'], .str ['b'])]) sMATCH
      = .ok true := by
    simp [match_item, miEntries, check_regex, alookup, preprocess_to_list, sortIfList,
      miLeafRest, strWrap, pyEq]
  have hinner : check_rule (.dict [(['a'], .str ['b'])])
      (.dict [(sMATCH, .dict [(['a'], .str ['b'])])]) = .ok true := by
    rw [check_rule]
    exact crEntries_match_true _ _ _ _ (by decide) (by decide) (by decide) hmatch
  refine ⟨?_, hinner⟩
  rw [check_rule]
  rw [crEntries_logical_verdict _ sNOT _ _ 1 false (by decide) ?hop ?hres]
  case hop =>
    rw [crOperand, crSum, hinner, crSum]
    simp
  case hres =>
    rw [check_logic_operation_sNOT _ _ 1 (by simp [pyLen])]
    simp
/-- C6, amended.  `check_rule` walks the keys in order and returns False when
the keys are exhausted; a function key (MATCH/MATCH$/FIND/FIND$) returns on
True and otherwise falls through to the next key, as do AND and OR when they
reach no verdict (counter ≠ len for AND, counter = 0 for OR) — but a NOT key
always produces a definite boolean and returns it immediately, so a false NOT
key does prevent later keys from being tried (and an unrecognized key is
skipped). -/
theorem C6_amended :
    (∀ ctx : PyVal, crEntries ctx [] = .ok false)
    ∧ (∀ (ctx v : PyVal) (rest : List (Str × PyVal)),
        match_item v ctx sMATCH = .ok true →
          crEntries ctx ((sMATCH, v) :: rest) = .ok true)
    ∧ (∀ (ctx v : PyVal) (rest : List (Str × PyVal)),
        match_item v ctx sMATCH = .ok false →
          crEntries ctx ((sMATCH, v) :: rest) = crEntries ctx rest)
    ∧ (∀ (ctx v : PyVal) (rest : List (Str × PyVal)),
        match_item v ctx sMATCHD = .ok false →
          crEntries ctx ((sMATCHD, v) :: rest) = crEntries ctx rest)
    ∧ (∀ (ctx v : PyVal) (rest : List (Str × PyVal)),
        find_item v ctx sFIND = .ok true →
          crEntries ctx ((sFIND, v) :: rest) = .ok true)
    ∧ (∀ (ctx v : PyVal) (rest : List (Str × PyVal)),
        find_item v ctx sFIND = .ok false →
          crEntries ctx ((sFIND, v) :: rest) = crEntries ctx rest)
    ∧ (∀ (ctx v : PyVal) (rest : List (Str × PyVal)),
        find_item v ctx sFINDD = .ok false →
          crEntries ctx ((sFINDD, v) :: rest) = crEntries ctx rest)
    ∧ (∀ (ctx v : PyVal) (rest : List (Str × PyVal)) (n L : Nat),
        crOperand ctx v = .ok n → pyLen v = .ok L → ¬ n = L →
          crEntries ctx ((sAND, v) :: rest) = crEntries ctx rest)
    ∧ (∀ (ctx v : PyVal) (rest : List (Str × PyVal)) (n L : Nat),
        crOperand ctx v = .ok n → pyLen v = .ok L → n = L →
          crEntries ctx ((sAND, v) :: rest) = .ok true)
    ∧ (∀ (ctx v : PyVal) (rest : List (Str × PyVal)),
        crOperand ctx v = .ok 0 →
          crEntries ctx ((sOR, v) :: rest) = crEntries ctx rest)
    ∧ (∀ (ctx v : PyVal) (rest : List (Str × PyVal)) (n : Nat),
        crOperand ctx v = .ok (n + 1) →
          crEntries ctx ((sOR, v) :: rest) = .ok true)
    ∧ (∀ (ctx v : PyVal) (rest : List (Str × PyVal)) (n L : Nat),
        crOperand ctx v = .ok n → pyLen v = .ok L →
          crEntries ctx ((sNOT, v) :: rest) = .ok (decide (¬ n = L)))
    ∧ (∀ (ctx v : PyVal) (k : Str) (rest : List (Str × PyVal)),
        ¬ k ∈ logical_operators → ¬ k ∈ functions →
          crEntries ctx ((k, v) :: rest) = crEntries ctx rest) := by
  refine ⟨fun ctx => by rw [crEntries], ?_, ?_, ?_, ?_, ?_, ?_, ?_, ?_, ?_, ?_, ?_, ?_⟩
  · exact fun ctx v rest h =>
      crEntries_match_true ctx sMATCH v rest (by decide) (by decide) (by decide) h
  · exact fun ctx v rest h =>
      crEntries_match_false ctx sMATCH v rest (by decide) (by decide) (by decide) h
  · exact fun ctx v rest h =>
      crEntries_match_false ctx sMATCHD v rest (by decide) (by decide) (by decide) h
  · exact fun ctx v rest h =>
      crEntries_find_true ctx sFIND v rest (by decide) (by decide) (by decide) h
  · exact fun ctx v rest h =>
      crEntries_find_false ctx sFIND v rest (by decide) (by decide) (by decide) h
  · exact fun ctx v rest h =>
      crEntries_find_false ctx sFINDD v rest (by decide) (by decide) (by decide) h
  · intro ctx v rest n L hop hlen hne
    exact crEntries_logical_continue ctx sAND v rest n (by decide) hop
      (by rw [check_logic_operation_sAND _ _ _ hlen]; simp [hne])
  · intro ctx v rest n L hop hlen heq
    exact crEntries_logical_verdict ctx sAND v rest n true (by decide) hop
      (by rw [check_logic_operation_sAND _ _ _ hlen]; simp [heq])
  · intro ctx v rest hop
    exact crEntries_logical_continue ctx sOR v rest 0 (by decide) hop
      (by rw [check_logic_operation_sOR]; simp)
  · intro ctx v rest n hop
    exact crEntries_logical_verdict ctx sOR v rest (n + 1) true (by decide) hop
      (by rw [check_logic_operation_sOR]; simp)
  · intro ctx v rest n L hop hlen
    exact crEntries_logical_verdict ctx sNOT v rest n (decide (¬ n = L)) (by decide) hop
      (by rw [check_logic_operation_sNOT _ _ _ hlen])
  · exact fun ctx v k rest h1 h2 => crEntries_other ctx k v rest h1 h2

/-- C6, witness: the amended theorem applied at concrete keys — an empty-dict
MATCH payload matches and returns True; an unrecognized key is skipped. -/
theorem C6_witness :
    crEntries (.dict []) [(sMATCH, .dict [])] = .ok true
    ∧ crEntries (.dict []) [(['z'], .int 0)] = .ok false := by
  constructor
  · refine C6_amended.2.1 (.dict []) (.dict []) [] ?_
    simp [match_item, miEntries]
  · rw [C6_amended.2.2.2.2.2.2.2.2.2.2.2.2 (.dict []) (.int 0) ['z'] []
      (by decide) (by decide)]
    exact C6_amended.1 (.dict [])

/-- C8: `run` appends one generator object per matched role
(`user_policies.append(policy for policy in ...)`) and wraps the result in
`set(...)`; generator objects compare by identity, so with two matched roles
that share one identical policy the result is a two-element set of generator
objects — not the claimed one-element deduplicated set of the policy records
themselves, which the spec-modelled `run_intended` returns. -/
theorem C8_run_returns_generators :
    run (.dict []) [⟨1, ['u'], .dict [(sMATCH, .dict [])]⟩,
                    ⟨2, ['v'], .dict [(sMATCH, .dict [])]⟩] (fun _ => [7])
      = .ok [.gen 0 [7], .gen 1 [7]]
    ∧ run_intended (.dict []) [⟨1, ['u'], .dict [(sMATCH, .dict [])]⟩,
                    ⟨2, ['v'], .dict [(sMATCH, .dict [])]⟩] (fun _ => [7])
      = .ok [7]
    ∧ (GenObj.gen 0 [7] ≠ GenObj.gen 1 [7]) := by
  have hmatch : match_item (.dict []) (.dict []) sMATCH = .ok true := by
    simp [match_item, miEntries]
  have hcr : check_rule (.dict []) (.dict [(sMATCH, .dict [])]) = .ok true := by
    rw [check_rule]
    exact crEntries_match_true _ _ _ _ (by decide) (by decide) (by decide) hmatch
  have hur : get_user_roles (.dict [])
      [(⟨1, ['u'], .dict [(sMATCH, .dict [])]⟩ : PyRole),
       ⟨2, ['v'], .dict [(sMATCH, .dict [])]⟩]
      = .ok [(1, ['u']), (2, ['v'])] := by
    rw [get_user_roles, hcr, get_user_roles, hcr, get_user_roles]
    rfl
  refine ⟨?_, ?_, by decide⟩
  · rw [run, hur]
    rfl
  · rw [run_intended, hur]
    rfl

/-! ### Shape facts about the JSON parser (for C9) -/

/-- A scanned string body is strictly shorter than its input (the closing
quote is consumed too). -/
lemma jstrScan_length : ∀ s t rest, jstrScan s = .ok (t, rest) →
    s.length = t.length + 1 + rest.length := by
  intro s
  induction s with
  | nil => intro t rest h; simp [jstrScan] at h
  | cons c r ih =>
    intro t rest h
    rw [jstrScan] at h
    split at h
    · cases h
    · split at h
      · injection h with h2
        injection h2 with ht hrest
        subst ht; subst hrest
        simp only [List.length_cons, List.length_nil]
        omega
      · split at h
        · cases h
        · rename_i t2 rest2 hrec
          injection h with h2
          injection h2 with ht hrest
          have hlen := ih t2 rest2 hrec
          have h3 := congrArg List.length ht
          have h4 := congrArg List.length hrest
          simp only [List.length_cons] at hlen h3 h4 ⊢
          omega

/-- Skipping whitespace never lengthens a string. -/
lemma jskip_length : ∀ s : Str, (jskip s).length ≤ s.length := by
  intro s
  induction s with
  | nil => simp [jskip]
  | cons c r ih =>
    rw [jskip]
    split
    · exact Nat.le_succ_of_le ih
    · simp

/-- `jint` only produces integers. -/
lemma jint_shape (neg : Bool) (s : Str) (v : PyVal) (rest : Str)
    (h : jint neg s = .ok (v, rest)) : ∃ n, v = .int n := by
  rw [jint] at h
  split at h
  · cases h
  · injection h with h2
    injection h2 with hv _
    exact ⟨_, hv.symm⟩

/-- `jarrItems` only produces lists. -/
lemma jarrItems_shape : ∀ (fuel : Nat) (s : Str) (acc : List PyVal) (v : PyVal) (rest : Str),
    jarrItems fuel s acc = .ok (v, rest) → ∃ xs, v = .list xs := by
  intro fuel
  induction fuel with
  | zero => intro s acc v rest h; simp [jarrItems] at h
  | succ fuel ih =>
    intro s acc v rest h
    rw [jarrItems] at h
    split at h
    · cases h
    · rename_i v2 rest2 _
      split at h
      · exact ih _ _ _ _ h
      · injection h with h2
        injection h2 with hv _
        exact ⟨_, hv.symm⟩
      · cases h

/-- `jobjItems` only produces dicts. -/
lemma jobjItems_shape : ∀ (fuel : Nat) (s : Str) (acc : List (Str × PyVal))
    (v : PyVal) (rest : Str),
    jobjItems fuel s acc = .ok (v, rest) → ∃ es, v = .dict es := by
  intro fuel
  induction fuel with
  | zero => intro s acc v rest h; simp [jobjItems] at h
  | succ fuel ih =>
    intro s acc v rest h
    rw [jobjItems] at h
    split at h
    · rename_i r _
      split at h
      · cases h
      · rename_i k r2 _
        split at h
        · rename_i r3 _
          split at h
          · cases h
          · rename_i v2 r4 _
            split at h
            · exact ih _ _ _ _ h
            · rename_i d r5 _
              split at h
              · injection h with h2
                injection h2 with hv _
                exact ⟨_, hv.symm⟩
              · cases h
            · cases h
        · cases h
    · cases h

/-- If `jval` produces a string value, the input (after whitespace) was a
quoted literal and the value is its scanned body. -/
lemma jval_str_shape (fuel : Nat) (s : Str) (t : Str) (rest : Str)
    (h : jval fuel s = .ok (.str t, rest)) :
    ∃ r, jskip s = '"' :: r ∧ jstrScan r = .ok (t, rest) := by
  cases fuel with
  | zero => simp [jval] at h
  | succ fuel =>
    rw [jval] at h
    split at h
    · cases h
    · rename_i c r heq
      split at h
      · -- object branch
        split at h
        · cases h
        · split at h
          · cases h
          · obtain ⟨es, hes⟩ := jobjItems_shape _ _ _ _ _ h
            cases hes
      · split at h
        · -- string branch
          rename_i hnotbrace hquote
          split at h
          · cases h
          · rename_i t2 rest2 hscan
            injection h with h2
            injection h2 with hv hrest
            injection hv with hv2
            subst hv2; subst hrest
            exact ⟨r, by rw [heq, hquote], hscan⟩
        · split at h
          · -- array branch
            split at h
            · cases h
            · obtain ⟨xs, hxs⟩ := jarrItems_shape _ _ _ _ _ h
              cases hxs
          · split at h
            · -- negative number branch
              obtain ⟨n, hn⟩ := jint_shape _ _ _ _ h
              cases hn
            · split at h
              · -- number branch
                obtain ⟨n, hn⟩ := jint_shape _ _ _ _ h
                cases hn
              · -- keyword branch
                split at h <;> cases h

/-- A string produced by `jparse` is strictly shorter than the parsed text:
the quotes are consumed.  In particular parsing never returns the input text
itself. -/
lemma jparse_str_shrinks (s t : Str) (h : jparse s = .ok (.str t)) :
    t.length < s.length := by
  rw [jparse] at h
  split at h
  · cases h
  · rename_i v rest hval
    split at h
    · injection h with hv
      subst hv
      obtain ⟨r, hr, hscan⟩ := jval_str_shape _ _ _ _ hval
      have h1 : (jskip s).length ≤ s.length := jskip_length s
      rw [hr] at h1
      have h2 := jstrScan_length r t rest hscan
      simp at h1
      omega
    · cases h

/-- `json.loads` never hands back the very text it was given: its string
results lose their quotes. -/
lemma jloads_str_ne (s : Str) (v : PyVal) (h : jloads (.str s) = .ok v) :
    v ≠ .str s := by
  intro hv
  subst hv
  exact absurd (jparse_str_shrinks s s h) (lt_irrefl _)

/-- `json.loads` on any non-string raises TypeError. -/
lemma jloads_nonstr (v : PyVal) (h : ∀ s, v ≠ .str s) :
    jloads v = .error .typeError := by
  cases v with
  | str s => exact absurd rfl (h s)
  | int n => rfl
  | bool b => rfl
  | none => rfl
  | list xs => rfl
  | dict es => rfl

/-- `parseRoles` rewrites every role's `rule` to its parsed value, keeping id
and name. -/
lemma parseRoles_spec : ∀ (roles rs : List PyRole), parseRoles roles = .ok rs →
    List.Forall₂ (fun r r2 : PyRole =>
      jloads r.rule = .ok r2.rule ∧ r2.id = r.id ∧ r2.name = r.name) roles rs := by
  intro roles
  induction roles with
  | nil =>
    intro rs h
    rw [parseRoles] at h
    injection h with h2
    subst h2
    exact List.Forall₂.nil
  | cons r rest ih =>
    intro rs h
    rw [parseRoles] at h
    split at h
    · cases h
    · rename_i r2 hr2
      split at h
      · cases h
      · rename_i rest2 hrest2
        injection h with h2
        subst h2
        rw [parseRole] at hr2
        split at hr2
        · cases hr2
        · rename_i v hv
          injection hr2 with h3
          subst h3
          exact List.Forall₂.cons ⟨hv, rfl, rfl⟩ (ih rest2 hrest2)

/-- C9, counterexample.  A role whose rule text is the JSON string literal
`"true"` parses to the (still string-valued) rule `true`; constructing a
checker with the very same role object a second time therefore does not fail
— it happily parses `true` to the boolean — contradicting the claim that a
second construction always fails. -/
theorem C9_counterexample :
    initSingle (.str ['[', ']']) ⟨1, ['u'], .str ['"', 't', 'r', 'u', 'e', '"']⟩
      = .ok (.list [], [⟨1, ['u'], .str ['t', 'r', 'u', 'e']⟩])
    ∧ initSingle (.str ['[', ']']) ⟨1, ['u'], .str ['t', 'r', 'u', 'e']⟩
      = .ok (.list [], [⟨1, ['u'], .bool true⟩]) := by
  exact ⟨rfl, rfl⟩

/-- C9, amended.  `__init__` does overwrite each role's `rule` attribute with
its parsed JSON value (id and name untouched), and the original rule text is
always lost — the parsed value is never the original string.  A second
construction from the same role object fails with TypeError whenever the
parsed value is not itself a string; when the rule text was a JSON string
literal the rule stays a string and the second construction re-parses its
content instead of failing. -/
theorem C9_amended :
    (∀ (auth : PyVal) (role : PyRole) (out : PyVal × List PyRole),
      initSingle auth role = .ok out →
        ∃ v, jloads role.rule = .ok v
          ∧ out.2 = [⟨role.id, role.name, v⟩]
          ∧ (∀ s, role.rule = .str s → v ≠ .str s)
          ∧ ((∀ s, v ≠ .str s) →
              initSingle auth ⟨role.id, role.name, v⟩ = .error .typeError))
    ∧ (∀ (auth : PyVal) (roles : List PyRole) (out : PyVal × List PyRole),
        initList auth roles = .ok out →
          List.Forall₂ (fun r r2 : PyRole =>
            jloads r.rule = .ok r2.rule ∧ r2.id = r.id ∧ r2.name = r.name)
            roles out.2) := by
  constructor
  · intro auth role out h
    rw [initSingle] at h
    split at h
    · cases h
    · rename_i actx hauth
      split at h
      · cases h
      · rename_i r2 hr2
        injection h with h2
        subst h2
        rw [parseRole] at hr2
        split at hr2
        · cases hr2
        · rename_i v hv
          injection hr2 with h3
          subst h3
          refine ⟨v, hv, rfl, ?_, ?_⟩
          · intro s hs
            rw [hs] at hv
            exact jloads_str_ne s v hv
          · intro hnostr
            rw [initSingle, hauth, parseRole]
            simp [jloads_nonstr v hnostr]
  · intro auth roles out h
    rw [initList] at h
    split at h
    · cases h
    · split at h
      · cases h
      · rename_i rs hrs
        injection h with h2
        subst h2
        exact parseRoles_spec roles rs hrs

/-- C9, witness: the amended theorem applied to a role whose rule text is
`[]`; the parsed rule is a list, so re-construction fails. -/
theorem C9_witness :
    initSingle (.str ['[', ']']) ⟨1, ['u'], .list []⟩ = .error .typeError := by
  obtain ⟨v, hv, hout, _, hsecond⟩ :=
    C9_amended.1 (.str ['[', ']']) ⟨1, ['u'], .str ['[', ']']⟩
      (.list [], [⟨1, ['u'], .list []⟩]) rfl
  have hveq : v = .list [] := by
    injection hout with hhead _
    injection hhead with _ _ h3
    exact h3.symm
  subst hveq
  exact hsecond (fun s hs => by cases hs)

/-! ### The counter arithmetic of `process_lists` (for C1) -/

lemma hitCount_cons (value v : PyVal) (vs : List PyVal) :
    hitCount value (v :: vs)
      = hitCount value vs + (if okTrue (pairTest v value) then 1 else 0) := by
  simp [hitCount, List.countP_cons]

lemma plCheck_sMATCH (c lenR lenA : Nat) :
    plCheck sMATCH c lenR lenA = decide (c = lenR) := by
  simp [plCheck]

lemma plCheck_sMATCHD_eq (c n : Nat) :
    plCheck sMATCHD c n n = decide (c = n) := by
  have h : ¬ (sMATCHD = sMATCH) := by decide
  by_cases hc : c = n <;> simp [plCheck, h, hc]

lemma plCheck_sMATCHD_ne (c lenR lenA : Nat) (h : ¬ lenA = lenR) :
    plCheck sMATCHD c lenR lenA = false := by
  have h2 : ¬ (sMATCHD = sMATCH) := by decide
  rw [plCheck, if_neg h2, if_pos rfl]
  have h3 : ¬ c = lenA ∨ ¬ c = lenR := by omega
  rcases h3 with h3 | h3 <;> simp [h3]

/-- The inner loop when the mode's check fires exactly at `counter = lenR`:
starting strictly below the target, it early-returns iff the pair hits of
this context element push the counter to the target, and otherwise ends with
the counter advanced by those hits. -/
lemma plInner_target (mode : Str) (lenR lenA : Nat)
    (hmode : ∀ c, plCheck mode c lenR lenA = decide (c = lenR)) (value : PyVal) :
    ∀ (vs : List PyVal) (counter : Nat),
      (∀ v ∈ vs, bOk (pairTest v value) = true) → counter < lenR →
      plInner mode lenR lenA value vs counter
        = if lenR ≤ counter + hitCount value vs then .ok (.inl 1)
          else .ok (.inr (counter + hitCount value vs)) := by
  intro vs
  induction vs with
  | nil =>
    intro counter _ hlt
    have h0 : hitCount value [] = 0 := by simp [hitCount]
    rw [plInner, h0, Nat.add_zero, if_neg (by omega)]
  | cons v vs ih =>
    intro counter hok hlt
    obtain ⟨hit, hpt⟩ : ∃ b, pairTest v value = .ok b := by
      have hv := hok v (by simp)
      cases hb : pairTest v value with
      | ok b => exact ⟨b, rfl⟩
      | error e => rw [hb] at hv; simp [bOk] at hv
    have hOk : okTrue (pairTest v value) = hit := by
      rw [hpt]; cases hit <;> rfl
    have hrest : ∀ v2 ∈ vs, bOk (pairTest v2 value) = true :=
      fun v2 hv2 => hok v2 (by simp [hv2])
    have hsplit : hitCount value (v :: vs)
        = hitCount value vs + (if hit = true then 1 else 0) := by
      rw [hitCount_cons, hOk]
    rw [plInner]
    simp only [hpt, hmode]
    by_cases hc : (if hit = true then counter + 1 else counter) = lenR
    · have hle : lenR ≤ counter + hitCount value (v :: vs) := by
        rw [hsplit]
        cases hit <;> simp at hc ⊢ <;> omega
      simp only [hc, decide_True, if_true, hle, if_pos hle]
    · have hlt2 : (if hit = true then counter + 1 else counter) < lenR := by
        cases hit <;> simp at hc ⊢ <;> omega
      have hnle : ¬ lenR ≤ counter + hitCount value (v :: vs) → True := fun _ => trivial
      simp only [hc, decide_False, Bool.false_eq_true, if_false]
      rw [ih _ hrest hlt2]
      have harith : (if hit = true then counter + 1 else counter) + hitCount value vs
          = counter + hitCount value (v :: vs) := by
        rw [hsplit]
        cases hit <;> simp <;> omega
      rw [harith]

/-- The outer loop under the same check shape: starting strictly below the
target, `process_lists` returns 1 iff the total pair hits reach the target. -/
lemma plOuter_target (mode : Str) (role_chunk : List PyVal) (lenR lenA : Nat)
    (hmode : ∀ c, plCheck mode c lenR lenA = decide (c = lenR)) :
    ∀ (auths : List PyVal) (counter : Nat),
      (∀ value ∈ auths, ∀ v ∈ role_chunk, bOk (pairTest v value) = true) →
      counter < lenR →
      plOuter mode role_chunk lenR lenA auths counter
        = if lenR ≤ counter + (auths.map (fun value => hitCount value role_chunk)).sum
          then .ok 1 else .ok 0 := by
  intro auths
  induction auths with
  | nil =>
    intro counter _ hlt
    rw [plOuter]
    simp only [List.map_nil, List.sum_nil, Nat.add_zero]
    rw [if_neg (by omega)]
  | cons value rest ih =>
    intro counter hok hlt
    have hval : ∀ v ∈ role_chunk, bOk (pairTest v value) = true :=
      fun v hv => hok value (by simp) v hv
    have hrest : ∀ value2 ∈ rest, ∀ v ∈ role_chunk, bOk (pairTest v value2) = true :=
      fun value2 h2 v hv => hok value2 (by simp [h2]) v hv
    rw [plOuter, plInner_target mode lenR lenA hmode value role_chunk counter hval hlt]
    by_cases hc : lenR ≤ counter + hitCount value role_chunk
    · have hall : lenR ≤ counter +
          ((value :: rest).map (fun value => hitCount value role_chunk)).sum := by
        simp only [List.map_cons, List.sum_cons]
        omega
      simp only [if_pos hc, if_pos hall]
    · have hlt2 : counter + hitCount value role_chunk < lenR := by omega
      simp only [if_neg hc]
      rw [ih _ hrest hlt2]
      simp only [List.map_cons, List.sum_cons, ← Nat.add_assoc]

/-- With an empty rule list the inner loop never runs its check and the
whole call returns 0. -/
lemma plOuter_nil_role (mode : Str) (lenR lenA : Nat) :
    ∀ (auths : List PyVal) (counter : Nat),
      plOuter mode [] lenR lenA auths counter = .ok 0 := by
  intro auths
  induction auths with
  | nil => intro counter; simp [plOuter]
  | cons value rest ih => intro counter; simp [plOuter, plInner, ih]

/-- When the mode's check can never fire (MATCH$ with unequal lengths) the
loops just run to completion and return 0. -/
lemma plInner_nocheck (mode : Str) (lenR lenA : Nat)
    (hmode : ∀ c, plCheck mode c lenR lenA = false) (value : PyVal) :
    ∀ (vs : List PyVal) (counter : Nat),
      (∀ v ∈ vs, bOk (pairTest v value) = true) →
      plInner mode lenR lenA value vs counter
        = .ok (.inr (counter + hitCount value vs)) := by
  intro vs
  induction vs with
  | nil => intro counter _; simp [plInner, hitCount]
  | cons v vs ih =>
    intro counter hok
    obtain ⟨hit, hpt⟩ : ∃ b, pairTest v value = .ok b := by
      have hv := hok v (by simp)
      cases hb : pairTest v value with
      | ok b => exact ⟨b, rfl⟩
      | error e => rw [hb] at hv; simp [bOk] at hv
    have hOk : okTrue (pairTest v value) = hit := by
      rw [hpt]; cases hit <;> rfl
    have hsplit : hitCount value (v :: vs)
        = hitCount value vs + (if hit = true then 1 else 0) := by
      rw [hitCount_cons, hOk]
    rw [plInner]
    simp only [hpt, hmode, Bool.false_eq_true, if_false]
    rw [ih _ (fun v2 hv2 => hok v2 (by simp [hv2]))]
    have harith : (if hit = true then counter + 1 else counter) + hitCount value vs
        = counter + hitCount value (v :: vs) := by
      rw [hsplit]
      cases hit <;> simp <;> omega
    rw [harith]

lemma plOuter_nocheck (mode : Str) (role_chunk : List PyVal) (lenR lenA : Nat)
    (hmode : ∀ c, plCheck mode c lenR lenA = false) :
    ∀ (auths : List PyVal) (counter : Nat),
      (∀ value ∈ auths, ∀ v ∈ role_chunk, bOk (pairTest v value) = true) →
      plOuter mode role_chunk lenR lenA auths counter = .ok 0 := by
  intro auths
  induction auths with
  | nil => intro counter _; simp [plOuter]
  | cons value rest ih =>
    intro counter hok
    rw [plOuter, plInner_nocheck mode lenR lenA hmode value role_chunk counter
      (fun v hv => hok value (by simp) v hv)]
    exact ih _ (fun value2 h2 v hv => hok value2 (by simp [h2]) v hv)

/-- C1, counterexample.  With rule list `["a", "b"]` and context list
`["a", "a"]` under MATCH, the single global counter reaches 2 =
`len(role_chunk)` by matching the rule element `"a"` against both context
elements, so `process_lists` succeeds — although the rule element `"b"`
appears nowhere in the context, which the claim requires.  Also, with an
empty rule list against a non-empty context the claim's "every element"
condition holds vacuously, yet the code returns 0. -/
theorem C1_counterexample :
    process_lists [.str ['a'], .str ['b']] [.str ['a'], .str ['a']] sMATCH = .ok 1
    ∧ ([PyVal.str ['a'], PyVal.str ['a']].any
        (fun value => okTrue (pairTest (.str ['b']) value))) = false
    ∧ process_lists [] [.str ['a']] sMATCH = .ok 0 := by
  refine ⟨?_, ?_, ?_⟩
  · simp [process_lists]
    simp [plOuter, plInner, pairTest, check_regex, pyEq, plCheck, sMATCH, sMATCHD]
  · simp [pairTest, check_regex, pyEq, okTrue]
  · simp [process_lists]
    simp [plOuter, plInner, plCheck, sMATCH, sMATCHD]

/-- C1, amended.  When every pair test is error-free, `process_lists` under
MATCH succeeds iff the rule list is non-empty and the TOTAL number of
matching (context element, rule element) pairs — counted with multiplicity by
the single global counter, not the number of covered rule elements — reaches
the rule list's length; under MATCH$ success additionally requires the two
lists to have equal length.  (A rule element matched by two context elements
counts twice, which is how the counterexample passes; an empty rule list
never succeeds, check included.) -/
theorem C1_amended :
    ∀ (role_chunk auth_context : List PyVal),
      pairsOk role_chunk auth_context = true →
      process_lists role_chunk auth_context sMATCH
        = .ok (if 1 ≤ role_chunk.length
                ∧ role_chunk.length ≤ totalHits role_chunk auth_context
               then 1 else 0)
      ∧ process_lists role_chunk auth_context sMATCHD
        = .ok (if 1 ≤ role_chunk.length
                ∧ role_chunk.length = auth_context.length
                ∧ role_chunk.length ≤ totalHits role_chunk auth_context
               then 1 else 0) := by
  intro role_chunk auth_context hOk
  have hok : ∀ value ∈ auth_context, ∀ v ∈ role_chunk, bOk (pairTest v value) = true := by
    intro value hval v hv
    have h1 := List.all_eq_true.mp hOk value hval
    exact List.all_eq_true.mp h1 v hv
  cases hrole : role_chunk with
  | nil =>
    constructor
    · rw [process_lists, plOuter_nil_role]
      simp
    · rw [process_lists, plOuter_nil_role]
      simp
  | cons r rs =>
    have hlen : 1 ≤ role_chunk.length := by rw [hrole]; simp
    have hpos : 0 < role_chunk.length := hlen
    have hts : ((auth_context.map (fun value => hitCount value role_chunk)).sum
        = totalHits role_chunk auth_context) := rfl
    rw [← hrole]
    constructor
    · rw [process_lists,
        plOuter_target sMATCH role_chunk role_chunk.length auth_context.length
          (plCheck_sMATCH · role_chunk.length auth_context.length) auth_context 0 hok hpos]
      rw [Nat.zero_add, hts]
      by_cases hc : role_chunk.length ≤ totalHits role_chunk auth_context
      · rw [if_pos hc, if_pos ⟨hlen, hc⟩]
      · rw [if_neg hc, if_neg (fun h3 => hc h3.2)]
    · by_cases hL : role_chunk.length = auth_context.length
      · have hmode : ∀ c, plCheck sMATCHD c role_chunk.length auth_context.length
            = decide (c = role_chunk.length) := by
          intro c
          rw [← hL]
          exact plCheck_sMATCHD_eq c role_chunk.length
        rw [process_lists,
          plOuter_target sMATCHD role_chunk role_chunk.length auth_context.length
            hmode auth_context 0 hok hpos]
        rw [Nat.zero_add, hts]
        by_cases hc : role_chunk.length ≤ totalHits role_chunk auth_context
        · rw [if_pos hc, if_pos ⟨hlen, hL, hc⟩]
        · rw [if_neg hc, if_neg (fun h3 => hc h3.2.2)]
      · rw [process_lists,
          plOuter_nocheck sMATCHD role_chunk role_chunk.length auth_context.length
            (fun c => plCheck_sMATCHD_ne c role_chunk.length auth_context.length
              (fun h => hL h.symm)) auth_context 0 hok]
        rw [if_neg (fun h3 => hL h3.2.1)]

/-- C1, witness: the amended theorem applied to the one-element lists
`["a"]` / `["a"]`, where both modes succeed. -/
theorem C1_witness :
    process_lists [.str ['a']] [.str ['a']] sMATCH = .ok 1
    ∧ process_lists [.str ['a']] [.str ['a']] sMATCHD = .ok 1 := by
  have h := C1_amended [.str ['a']] [.str ['a']]
    (by simp [pairsOk, pairTest, check_regex, pyEq, bOk])
  have htot : totalHits [PyVal.str ['a']] [PyVal.str ['a']] = 1 := by
    simp [totalHits, hitCount, List.countP, List.countP.go, pairTest, check_regex,
      pyEq, okTrue]
  constructor
  · rw [h.1, htot]
    simp
  · rw [h.2, htot]
    simp

/-! ### Reachability and `find_item` (for C4) -/

lemma sizeOf_pyval_pos (v : PyVal) : 0 < sizeOf v := by
  cases v <;> simp_arith

lemma reaches_dict_inv {es : List (Str × PyVal)} {n : PyVal} :
    Reaches (.dict es) n ↔ n = .dict es ∨ ∃ k v, (k, v) ∈ es ∧ Reaches v n := by
  constructor
  · intro h
    cases h with
    | refl _ => exact Or.inl rfl
    | intoDict es k v n hm hr => exact Or.inr ⟨k, v, hm, hr⟩
  · rintro (rfl | ⟨k, v, hm, hr⟩)
    · exact .refl _
    · exact .intoDict es k v n hm hr

lemma reaches_list_inv {xs : List PyVal} {n : PyVal} :
    Reaches (.list xs) n
      ↔ n = .list xs ∨ ∃ es, PyVal.dict es ∈ xs ∧ Reaches (.dict es) n := by
  constructor
  · intro h
    cases h with
    | refl _ => exact Or.inl rfl
    | intoList xs es n hm hr => exact Or.inr ⟨es, hm, hr⟩
  · rintro (rfl | ⟨es, hm, hr⟩)
    · exact .refl _
    · exact .intoList xs es n hm hr

lemma reaches_other_inv {v n : PyVal} (h1 : ∀ es, v ≠ .dict es)
    (h2 : ∀ xs, v ≠ .list xs) : Reaches v n ↔ n = v := by
  constructor
  · intro h
    cases h with
    | refl _ => rfl
    | intoDict es k v2 n hm hr => exact absurd rfl (h1 es)
    | intoList xs es n hm hr => exact absurd rfl (h2 xs)
  · rintro rfl
    exact .refl _

/-- `fiList` finds a match exactly when some dict element of the list reaches
a node that matches. -/
lemma fiList_iff (rc : PyVal) (mode2 : Str) (M : Nat)
    (ihf : ∀ ac', sizeOf ac' ≤ M → ∀ b', find_item rc ac' mode2 = .ok b' →
      (b' = true ↔ ∃ n, Reaches ac' n ∧ match_item rc n mode2 = .ok true)) :
    ∀ (xs : List PyVal) (b : Bool),
      (∀ v ∈ xs, sizeOf v ≤ M) →
      fiList rc xs mode2 = .ok b →
      (b = true ↔ ∃ es, PyVal.dict es ∈ xs ∧ ∃ n, Reaches (.dict es) n
        ∧ match_item rc n mode2 = .ok true) := by
  intro xs
  induction xs with
  | nil =>
    intro b _ h
    rw [fiList] at h
    injection h with h2
    subst h2
    exact ⟨fun h3 => absurd h3 Bool.false_ne_true,
      fun ⟨es, hmem, _⟩ => absurd hmem (List.not_mem_nil _)⟩
  | cons v rest ih =>
    intro b hsz h
    by_cases hd : ∃ des, v = PyVal.dict des
    · obtain ⟨des, rfl⟩ := hd
      rw [fiList] at h
      split at h
      · cases h
      · rename_i hfind
        injection h with h2
        subst h2
        obtain ⟨n, hrn, hmn⟩ := (ihf _ (hsz _ (by simp)) true hfind).mp rfl
        constructor
        · intro _
          exact ⟨des, List.mem_cons_self _ _, n, hrn, hmn⟩
        · intro _
          rfl
      · rename_i hfind
        have hnone := ihf _ (hsz _ (by simp)) false hfind
        rw [ih b (fun v2 hv2 => hsz v2 (by simp [hv2])) h]
        constructor
        · rintro ⟨es2, hmem, n, hrn, hmn⟩
          exact ⟨es2, by simp [hmem], n, hrn, hmn⟩
        · rintro ⟨es2, hmem, n, hrn, hmn⟩
          rcases List.mem_cons.mp hmem with heq | hmem2
          · rw [heq] at hrn
            exact absurd (hnone.mpr ⟨n, hrn, hmn⟩) (by simp)
          · exact ⟨es2, hmem2, n, hrn, hmn⟩
    · rw [fiList.eq_3 rc mode2 v rest (fun es hq => hd ⟨es, hq⟩)] at h
      rw [ih b (fun v2 hv2 => hsz v2 (by simp [hv2])) h]
      constructor
      · rintro ⟨es2, hmem, n, hrn, hmn⟩
        exact ⟨es2, by simp [hmem], n, hrn, hmn⟩
      · rintro ⟨es2, hmem, n, hrn, hmn⟩
        rcases List.mem_cons.mp hmem with heq | hmem2
        · exact absurd ⟨es2, heq.symm⟩ hd
        · exact ⟨es2, hmem2, n, hrn, hmn⟩

/-- `fiEntries` finds a match exactly when some mapping value reaches a node
that matches. -/
lemma fiEntries_iff (rc : PyVal) (mode2 : Str) (M : Nat)
    (ihf : ∀ ac', sizeOf ac' ≤ M → ∀ b', find_item rc ac' mode2 = .ok b' →
      (b' = true ↔ ∃ n, Reaches ac' n ∧ match_item rc n mode2 = .ok true)) :
    ∀ (entries : List (Str × PyVal)) (b : Bool),
      (∀ k v, (k, v) ∈ entries → sizeOf v ≤ M) →
      fiEntries rc entries mode2 = .ok b →
      (b = true ↔ ∃ k v, (k, v) ∈ entries ∧ ∃ n, Reaches v n
        ∧ match_item rc n mode2 = .ok true) := by
  intro entries
  induction entries with
  | nil =>
    intro b _ h
    rw [fiEntries] at h
    injection h with h2
    subst h2
    exact ⟨fun h3 => absurd h3 Bool.false_ne_true,
      fun ⟨k, v, hmem, _⟩ => absurd hmem (List.not_mem_nil _)⟩
  | cons kv rest ih =>
    obtain ⟨k0, v0⟩ := kv
    intro b hsz h
    have hrest_iff : fiEntries rc rest mode2 = .ok b →
        (b = true ↔ ∃ k v, (k, v) ∈ rest ∧ ∃ n, Reaches v n
          ∧ match_item rc n mode2 = .ok true) :=
      fun hres => ih b (fun k v hv => hsz k v (by simp [hv])) hres
    by_cases hdct : ∃ des, v0 = PyVal.dict des
    · obtain ⟨des, rfl⟩ := hdct
      rw [fiEntries] at h
      split at h
      · cases h
      · rename_i hmv
        injection h with h2
        subst h2
        exact ⟨fun _ => ⟨k0, .dict des, by simp, .dict des, .refl _, hmv⟩, fun _ => rfl⟩
      · rename_i hmv
        split at h
        · cases h
        · rename_i hfind
          injection h with h2
          subst h2
          obtain ⟨n, hrn, hmn⟩ := (ihf _ (hsz k0 _ (by simp)) true hfind).mp rfl
          exact ⟨fun _ => ⟨k0, .dict des, by simp, n, hrn, hmn⟩, fun _ => rfl⟩
        · rename_i hfind
          have hnone := ihf _ (hsz k0 _ (by simp)) false hfind
          rw [hrest_iff h]
          constructor
          · rintro ⟨k, v, hmem, n, hrn, hmn⟩
            exact ⟨k, v, by simp [hmem], n, hrn, hmn⟩
          · rintro ⟨k, v, hmem, n, hrn, hmn⟩
            rcases List.mem_cons.mp hmem with heq | hmem2
            · injection heq with hk hv
              rw [hv] at hrn
              exact absurd (hnone.mpr ⟨n, hrn, hmn⟩) (by simp)
            · exact ⟨k, v, hmem2, n, hrn, hmn⟩
    · by_cases hlst : ∃ xs, v0 = PyVal.list xs
      · obtain ⟨xs, rfl⟩ := hlst
        have hxs : ∀ v ∈ xs, sizeOf v ≤ M := by
          intro v hv
          have h1 := hsz k0 (.list xs) (by simp)
          have h2 := List.sizeOf_lt_of_mem hv
          have h3 : sizeOf (PyVal.list xs) = 1 + sizeOf xs := by simp
          omega
        rw [fiEntries] at h
        split at h
        · cases h
        · rename_i hmv
          injection h with h2
          subst h2
          exact ⟨fun _ => ⟨k0, .list xs, by simp, .list xs, .refl _, hmv⟩, fun _ => rfl⟩
        · rename_i hmv
          split at h
          · cases h
          · rename_i hflist
            injection h with h2
            subst h2
            obtain ⟨es, hmemes, n, hrn, hmn⟩ :=
              (fiList_iff rc mode2 M ihf xs true hxs hflist).mp rfl
            refine ⟨fun _ => ⟨k0, .list xs, by simp, n, ?_, hmn⟩, fun _ => rfl⟩
            exact reaches_list_inv.mpr (Or.inr ⟨es, hmemes, hrn⟩)
          · rename_i hflist
            have hnone := fiList_iff rc mode2 M ihf xs false hxs hflist
            rw [hrest_iff h]
            constructor
            · rintro ⟨k, v, hmem, n, hrn, hmn⟩
              exact ⟨k, v, by simp [hmem], n, hrn, hmn⟩
            · rintro ⟨k, v, hmem, n, hrn, hmn⟩
              rcases List.mem_cons.mp hmem with heq | hmem2
              · injection heq with hk hv
                rw [hv] at hrn
                rcases reaches_list_inv.mp hrn with rfl | ⟨es, hmemes, hres⟩
                · exact absurd (hmv.symm.trans hmn) (by simp)
                · exact absurd (hnone.mpr ⟨es, hmemes, n, hres, hmn⟩) (by simp)
              · exact ⟨k, v, hmem2, n, hrn, hmn⟩
      · rw [fiEntries.eq_4 rc mode2 k0 v0 rest
          (fun des hq => hdct ⟨des, hq⟩) (fun xs hq => hlst ⟨xs, hq⟩)] at h
        split at h
        · cases h
        · rename_i hmv
          injection h with h2
          subst h2
          exact ⟨fun _ => ⟨k0, v0, by simp, v0, .refl _, hmv⟩, fun _ => rfl⟩
        · rename_i hmv
          rw [hrest_iff h]
          constructor
          · rintro ⟨k, v, hmem, n, hrn, hmn⟩
            exact ⟨k, v, by simp [hmem], n, hrn, hmn⟩
          · rintro ⟨k, v, hmem, n, hrn, hmn⟩
            rcases List.mem_cons.mp hmem with heq | hmem2
            · injection heq with hk hv
              rw [hv] at hrn
              have hother : Reaches v0 n ↔ n = v0 :=
                reaches_other_inv (fun es heq2 => hdct ⟨es, heq2⟩)
                  (fun xs heq2 => hlst ⟨xs, heq2⟩)
              rw [hother] at hrn
              rw [hrn] at hmn
              exact absurd (hmv.symm.trans hmn) (by simp)
            · exact ⟨k, v, hmem2, n, hrn, hmn⟩

/-- The reachability characterization of `find_item`, by strong induction on
the context size. -/
lemma find_iff_aux : ∀ (N : Nat) (ac : PyVal), sizeOf ac ≤ N →
    ∀ (rc : PyVal) (mode : Str) (b : Bool),
      find_item rc ac mode = .ok b →
      (b = true ↔ ∃ n, Reaches ac n
        ∧ match_item rc n (set_mode mode) = .ok true) := by
  intro N
  induction N with
  | zero =>
    intro ac hsz
    exact absurd hsz (by have := sizeOf_pyval_pos ac; omega)
  | succ N ihN =>
    intro ac hsz rc mode b hfind
    by_cases hdct : ∃ entries, ac = PyVal.dict entries
    · obtain ⟨entries, rfl⟩ := hdct
      rw [find_item] at hfind
      split at hfind
      · cases hfind
      · rename_i hroot
        injection hfind with h2
        subst h2
        exact ⟨fun _ => ⟨_, .refl _, hroot⟩, fun _ => rfl⟩
      · rename_i hroot
        have hidem := set_mode_idem mode
        have ihf : ∀ ac', sizeOf ac' ≤ N → ∀ b',
            find_item rc ac' (set_mode mode) = .ok b' →
            (b' = true ↔ ∃ n, Reaches ac' n
              ∧ match_item rc n (set_mode mode) = .ok true) := by
          intro ac' h1 b' h2
          have h3 := ihN ac' h1 rc (set_mode mode) b' h2
          rwa [hidem] at h3
        have hszE : ∀ k v, (k, v) ∈ entries → sizeOf v ≤ N := by
          intro k v hkv
          have h1 := List.sizeOf_lt_of_mem hkv
          have h2 : sizeOf (k, v) = 1 + sizeOf k + sizeOf v := by simp
          have h3 : sizeOf (PyVal.dict entries) = 1 + sizeOf entries := by simp
          simp only [h3] at hsz
          omega
        rw [fiEntries_iff rc (set_mode mode) N ihf entries b hszE hfind]
        constructor
        · rintro ⟨k, v, hm, n, hrn, hmn⟩
          exact ⟨n, .intoDict entries k v n hm hrn, hmn⟩
        · rintro ⟨n, hr, hmn⟩
          rcases reaches_dict_inv.mp hr with rfl | ⟨k, v, hm, hrv⟩
          · exact absurd (hroot.symm.trans hmn) (by simp)
          · exact ⟨k, v, hm, n, hrv, hmn⟩
    · rw [find_item.eq_2 rc ac mode (fun es hq => hdct ⟨es, hq⟩)] at hfind
      split at hfind
      · cases hfind
      · rename_i hroot
        injection hfind with h2
        subst h2
        exact ⟨fun _ => ⟨ac, .refl ac, hroot⟩, fun _ => rfl⟩
      · cases hfind

/-- C4, counterexample.  On the flat context `\x7b"k": "x"\x7d` (no nested
mappings or sequences) with the scalar rule fragment `"x"`, `find_item`
returns True — it also matches the rule against every mapping value — while
`match_item` at the root returns False, so `find` does not degenerate to
`matches` on flat contexts as the claim states. -/
theorem C4_counterexample :
    find_item (.str ['x']) (.dict [(['k'], .str ['x'])]) sFIND = .ok true
    ∧ match_item (.str ['x']) (.dict [(['k'], .str ['x'])]) sMATCH = .ok false := by
  have hm : match_item (.str ['x']) (.dict [(['k'], .str ['x'])]) sMATCH = .ok false := by
    simp [match_item, preprocess_to_list, sortIfList, check_regex, miLeafRest, strWrap, pyEq]
  constructor
  · have hm2 : match_item (.str ['x']) (.str ['x']) sMATCH = .ok true := by
      simp [match_item, preprocess_to_list, sortIfList, check_regex, miLeafRest, strWrap, pyEq]
    rw [find_item]
    rw [set_mode_sFIND, hm]
    rw [fiEntries.eq_4 (PyVal.str ['x']) sMATCH ['k'] (PyVal.str ['x']) []
      (fun des h => by cases h) (fun xs h => by cases h), hm2]
  · exact hm

/-- C4, amended.  Whenever `find_item` completes without an exception, it
returns True iff some node reachable from the context — by descending into
mapping values or into mapping elements of sequences — satisfies
`match_item` under the mode mapped through `set_mode`.  The claim's
degenerate case fails: on a flat mapping the reachable nodes include the
mapping's values, not just the root (see the counterexample). -/
theorem C4_amended :
    ∀ (rc ac : PyVal) (mode : Str) (b : Bool),
      find_item rc ac mode = .ok b →
      (b = true ↔ ∃ n, Reaches ac n
        ∧ match_item rc n (set_mode mode) = .ok true) :=
  fun rc ac mode b h => find_iff_aux (sizeOf ac) ac (Nat.le_refl _) rc mode b h

/-- C4, witness: the amended theorem applied to the counterexample context
produces the matching reachable node. -/
theorem C4_witness :
    ∃ n, Reaches (.dict [(['k'], .str ['x'])]) n
      ∧ match_item (.str ['x']) n sMATCH = .ok true := by
  have h := C4_amended (.str ['x']) (.dict [(['k'], .str ['x'])]) sFIND true
    C4_counterexample.1
  rw [set_mode_sFIND] at h
  exact h.mp rfl

/-! ### MATCH$ vs MATCH (for C2) -/

/-- A counter that satisfies the MATCH$ early return also satisfies the MATCH
one. -/
lemma plCheck_MATCHD_imp (c lenR lenA : Nat)
    (h : plCheck sMATCHD c lenR lenA = true) :
    plCheck sMATCH c lenR lenA = true := by
  rw [plCheck, if_neg (by decide : ¬ (sMATCHD = sMATCH)), if_pos rfl] at h
  rw [plCheck, if_pos rfl]
  simp only [Bool.and_eq_true, decide_eq_true_eq] at h
  simp [h.2]

/-- If the inner loop under MATCH$ completes, under MATCH it either
early-returns or produces the identical outcome (the pair tests do not depend
on the mode). -/
lemma plInner_mono (lenR lenA : Nat) (value : PyVal) :
    ∀ (vs : List PyVal) (counter : Nat) (r : Sum Nat Nat),
      plInner sMATCHD lenR lenA value vs counter = .ok r →
      plInner sMATCH lenR lenA value vs counter = .ok (.inl 1)
        ∨ plInner sMATCH lenR lenA value vs counter = .ok r := by
  intro vs
  induction vs with
  | nil =>
    intro counter r h
    exact Or.inr h
  | cons v vs ih =>
    intro counter r h
    cases hpt : pairTest v value with
    | error e =>
      rw [plInner] at h
      simp only [hpt] at h
      cases h
    | ok hit =>
      rw [plInner] at h
      simp only [hpt] at h
      rw [plInner]
      simp only [hpt]
      by_cases hchkD : plCheck sMATCHD (if hit = true then counter + 1 else counter)
          lenR lenA = true
      · rw [if_pos hchkD] at h
        rw [if_pos (plCheck_MATCHD_imp _ _ _ hchkD)]
        exact Or.inr h
      · rw [if_neg hchkD] at h
        by_cases hchkM : plCheck sMATCH (if hit = true then counter + 1 else counter)
            lenR lenA = true
        · rw [if_pos hchkM]
          exact Or.inl rfl
        · rw [if_neg hchkM]
          exact ih _ r h

/-- If the outer loop under MATCH$ completes, under MATCH it completes too,
and cannot turn a success into a failure. -/
lemma plOuter_mono (role_chunk : List PyVal) (lenR lenA : Nat) :
    ∀ (auths : List PyVal) (counter : Nat) (r : Nat),
      plOuter sMATCHD role_chunk lenR lenA auths counter = .ok r →
      ∃ m, plOuter sMATCH role_chunk lenR lenA auths counter = .ok m
        ∧ (r ≠ 0 → m ≠ 0) := by
  intro auths
  induction auths with
  | nil =>
    intro counter r h
    rw [plOuter] at h
    injection h with h2
    subst h2
    exact ⟨0, by rw [plOuter], fun h3 => h3⟩
  | cons value rest ih =>
    intro counter r h
    rw [plOuter] at h
    split at h
    · cases h
    · -- inner loop early-returned 1
      rename_i r0 hinner
      injection h with h2
      subst h2
      rcases plInner_mono lenR lenA value role_chunk counter (.inl r0) hinner with hM | hM
      · exact ⟨1, by rw [plOuter, hM], fun _ => one_ne_zero⟩
      · exact ⟨r0, by rw [plOuter, hM], fun h3 => h3⟩
    · -- inner loop finished with counter c
      rename_i c hinner
      rcases plInner_mono lenR lenA value role_chunk counter (.inr c) hinner with hM | hM
      · exact ⟨1, by rw [plOuter, hM], fun _ => one_ne_zero⟩
      · obtain ⟨m, hm, himp⟩ := ih c r h
        exact ⟨m, by rw [plOuter, hM]; exact hm, himp⟩

/-- `process_lists` under MATCH$ succeeding implies it succeeds under MATCH
on the same lists. -/
lemma process_lists_mono (rxs axs : List PyVal) (r : Nat)
    (h : process_lists rxs axs sMATCHD = .ok r) :
    ∃ m, process_lists rxs axs sMATCH = .ok m ∧ (r ≠ 0 → m ≠ 0) := by
  rw [process_lists] at h
  obtain ⟨m, hm, himp⟩ := plOuter_mono rxs rxs.length axs.length axs 0 r h
  exact ⟨m, by rw [process_lists]; exact hm, himp⟩

/-- Away from the list-vs-list pair, `miLeafRest` ignores the mode. -/
lemma miLeafRest_modefree (rc ac : PyVal)
    (hno : ¬ ((∃ rxs, strWrap rc = PyVal.list rxs) ∧ (∃ axs, ac = PyVal.list axs)))
    (m1 m2 : Str) : miLeafRest rc ac m1 = miLeafRest rc ac m2 := by
  rw [miLeafRest.eq_def, miLeafRest.eq_def]
  by_cases hpe : pyEq rc ac = true
  · rw [if_pos hpe, if_pos hpe]
  · rw [if_neg hpe, if_neg hpe]
    cases h1 : strWrap rc <;> cases h2 : ac <;>
      first
        | rfl
        | exact absurd ⟨⟨_, h1⟩, ⟨_, h2⟩⟩ hno

/-- Monotonicity of the leaf tail: a MATCH$ success survives the switch to
MATCH. -/
lemma miLeafRest_mono (rc ac : PyVal) (b : Bool)
    (h : miLeafRest rc ac sMATCHD = .ok b) :
    ∃ b', miLeafRest rc ac sMATCH = .ok b' ∧ (b = true → b' = true) := by
  by_cases hll : (∃ rxs, strWrap rc = PyVal.list rxs) ∧ (∃ axs, ac = PyVal.list axs)
  · obtain ⟨⟨rxs, hr⟩, ⟨axs, rfl⟩⟩ := hll
    by_cases hpe : pyEq rc (.list axs) = true
    · rw [miLeafRest.eq_def, if_pos hpe] at h
      injection h with h2
      subst h2
      exact ⟨true, by rw [miLeafRest.eq_def, if_pos hpe], fun _ => rfl⟩
    · rw [miLeafRest.eq_def, if_neg hpe] at h
      simp only [hr] at h
      split at h
      · cases h
      · rename_i r hpl
        injection h with h2
        subst h2
        obtain ⟨m, hm, himp⟩ := process_lists_mono rxs axs r hpl
        refine ⟨decide (¬ m = 0), ?_, ?_⟩
        · rw [miLeafRest.eq_def, if_neg hpe]
          simp only [hr, hm]
        · intro hb
          have hr0 : ¬ r = 0 := by simpa using hb
          simpa using himp hr0
  · exact ⟨b, by rw [miLeafRest_modefree rc ac hll sMATCH sMATCHD]; exact h, fun hb => hb⟩

/-- Monotonicity of the whole leaf branch of `match_item` (any shape pair
except dict-vs-dict): the mode only reaches `process_lists`. -/
lemma match_leaf_mono (rc ac : PyVal)
    (hnb : ∀ (res aes : List (Str × PyVal)), rc = .dict res → ac = .dict aes → False)
    (b : Bool) (h : match_item rc ac sMATCHD = .ok b) :
    ∃ b', match_item rc ac sMATCH = .ok b' ∧ (b = true → b' = true) := by
  rw [match_item.eq_2 rc ac sMATCHD hnb] at h
  split at h
  · cases h
  · rename_i rc2 ac2 hpre
    cases hcr : check_regex rc2 with
    | none =>
      simp only [hcr] at h
      obtain ⟨b', hb', himp⟩ := miLeafRest_mono rc2 ac2 b h
      refine ⟨b', ?_, himp⟩
      rw [match_item.eq_2 rc ac sMATCH hnb, hpre]
      simp only [hcr]
      exact hb'
    | some re =>
      simp only [hcr] at h
      split at h
      · cases h
      · rename_i hscan
        injection h with h2
        subst h2
        refine ⟨true, ?_, fun _ => rfl⟩
        rw [match_item.eq_2 rc ac sMATCH hnb, hpre]
        simp only [hcr, hscan]
      · rename_i hscan
        obtain ⟨b', hb', himp⟩ := miLeafRest_mono _ _ b h
        refine ⟨b', ?_, himp⟩
        rw [match_item.eq_2 rc ac sMATCH hnb, hpre]
        simp only [hcr, hscan]
        exact hb'

/-- Monotonicity of the dict loop for regex-free rule mappings: under MATCH
the counter can only grow, and it stays bounded by the number of rule keys. -/
lemma miEntries_mono (M : Nat)
    (ih : ∀ v, sizeOf v ≤ M → noRegexKeys v = true →
      ∀ av b, match_item v av sMATCHD = .ok b →
        ∃ b', match_item v av sMATCH = .ok b' ∧ (b = true → b' = true)) :
    ∀ (entries aentries : List (Str × PyVal)) (n : Nat),
      (∀ k v, (k, v) ∈ entries → sizeOf v ≤ M) →
      nrkEntries entries = true →
      miEntries entries aentries sMATCHD = .ok n →
      ∃ m, miEntries entries aentries sMATCH = .ok m
        ∧ n ≤ m ∧ m ≤ entries.length := by
  intro entries
  induction entries with
  | nil =>
    intro aentries n _ _ h
    rw [miEntries] at h
    injection h with h2
    subst h2
    exact ⟨0, by rw [miEntries], Nat.le_refl 0, by simp⟩
  | cons kv rest ihr =>
    obtain ⟨k, v⟩ := kv
    intro aentries n hsz hnrk h
    rw [nrkEntries] at hnrk
    simp only [Bool.and_eq_true] at hnrk
    obtain ⟨⟨hkreg, hvreg⟩, hrestreg⟩ := hnrk
    have hcrk : check_regex (.str k) = Option.none := by
      cases hc : check_regex (.str k)
      · rfl
      · rw [hc] at hkreg
        simp [Option.isNone] at hkreg
    rw [miEntries] at h
    simp only [hcrk] at h
    cases halk : alookup k aentries with
    | none =>
      simp only [halk] at h
      split at h
      · cases h
      · rename_i c3 hrest
        injection h with h2
        obtain ⟨m3, hm3, hle1, hle2⟩ := ihr aentries c3
          (fun k2 v2 hm => hsz k2 v2 (by simp [hm])) hrestreg hrest
        refine ⟨0 + 0 + m3, ?_, by omega, ?_⟩
        · rw [miEntries]
          simp only [hcrk, halk, hm3]
        · simp only [List.length_cons]
          omega
    | some av =>
      simp only [halk] at h
      cases hsub : match_item v av sMATCHD with
      | error e =>
        simp only [hsub] at h
        cases h
      | ok bsub =>
        simp only [hsub] at h
        split at h
        · cases h
        · rename_i c3 hrest
          injection h with h2
          obtain ⟨b', hb', himp⟩ := ih v (hsz k v (by simp)) hvreg av bsub hsub
          obtain ⟨m3, hm3, hle1, hle2⟩ := ihr aentries c3
            (fun k2 v2 hm => hsz k2 v2 (by simp [hm])) hrestreg hrest
          have hbb : (if bsub then 1 else 0) ≤ (if b' then (1 : Nat) else 0) := by
            cases bsub
            · simp
            · simp [himp rfl]
          have hb1 : (if b' then (1 : Nat) else 0) ≤ 1 := by
            cases b' <;> simp
          refine ⟨0 + (if b' then 1 else 0) + m3, ?_, by omega, ?_⟩
          · rw [miEntries]
            simp only [hcrk, halk, hb', hm3]
          · simp only [List.length_cons]
            omega

/-- A MATCH$ success on a regex-free rule fragment is also a MATCH success,
by strong induction on the rule size. -/
lemma match_mono_aux : ∀ (N : Nat) (rc : PyVal), sizeOf rc ≤ N →
    noRegexKeys rc = true →
    ∀ (ac : PyVal) (b : Bool), match_item rc ac sMATCHD = .ok b →
      ∃ b', match_item rc ac sMATCH = .ok b' ∧ (b = true → b' = true) := by
  intro N
  induction N with
  | zero =>
    intro rc hsz
    exact absurd hsz (by have := sizeOf_pyval_pos rc; omega)
  | succ N ihN =>
    intro rc hsz hnrk ac b h
    by_cases hrd : ∃ res, rc = PyVal.dict res
    · obtain ⟨res, rfl⟩ := hrd
      by_cases had : ∃ aes, ac = PyVal.dict aes
      · obtain ⟨aes, rfl⟩ := had
        rw [match_item] at h
        split at h
        · cases h
        · rename_i nn hment
          injection h with h2
          subst h2
          have hszV : ∀ k v, (k, v) ∈ res → sizeOf v ≤ N := by
            intro k v hkv
            have h1 := List.sizeOf_lt_of_mem hkv
            have h2 : sizeOf (k, v) = 1 + sizeOf k + sizeOf v := by simp
            have h3 : sizeOf (PyVal.dict res) = 1 + sizeOf res := by simp
            simp only [h3] at hsz
            omega
          have hnrkE : nrkEntries res = true := by
            rw [noRegexKeys] at hnrk
            exact hnrk
          obtain ⟨m, hm, hle1, hle2⟩ := miEntries_mono N
            (fun v h1 h2 av b2 h3 => ihN v h1 h2 av b2 h3) res aes nn hszV hnrkE hment
          refine ⟨decide (m = res.length), ?_, ?_⟩
          · rw [match_item, hm]
          · intro hb
            have hnn : nn = res.length := by simpa using hb
            have hmeq : m = res.length := by omega
            simp [hmeq]
      · exact match_leaf_mono _ ac (fun res2 aes h1 h2 => had ⟨aes, h2⟩) b h
    · exact match_leaf_mono rc ac (fun res aes h1 h2 => hrd ⟨res, h1⟩) b h

/-- C2, counterexample.  With the rule mapping `\x7b"r'.'X": ["z"]\x7d` —
whose single key is the regex literal `.` — and the context
`\x7b"a": ["z"], "b": ["z", "w"]\x7d`, MATCH$ succeeds (the regex key scores
exactly one hit, on `"a"`, since `["z"]` vs `["z", "w"]` fails the MATCH$
length check) but MATCH fails: under MATCH the regex key also matches via
`"b"`, pushing the success counter to 2 ≠ 1 = number of rule keys.  So
`matches$(R,C)` does not imply `matches(R,C)`. -/
theorem C2_counterexample :
    match_item
      (.dict [(['r', '\'', '.', '\'', 'X'], .list [.str ['z']])])
      (.dict [(['a'], .list [.str ['z']]),
              (['b'], .list [.str ['z'], .str ['w']])]) sMATCHD = .ok true
    ∧ match_item
      (.dict [(['r', '\'', '.', '\'', 'X'], .list [.str ['z']])])
      (.dict [(['a'], .list [.str ['z']]),
              (['b'], .list [.str ['z'], .str ['w']])]) sMATCH = .ok false := by
  have hre : check_regex (.str ['r', '\'', '.', '\'', 'X'])
      = some ⟨['.'], [RPiece.once .dot]⟩ := rfl
  have ha : rmatch [RPiece.once .dot] ['a'] = true := by
    simp [rmatch, rmatchAux, atomMatch]
  have hb : rmatch [RPiece.once .dot] ['b'] = true := by
    simp [rmatch, rmatchAux, atomMatch]
  have hZ1T : match_item (.list [.str ['z']]) (.list [.str ['z']])
      sMATCH = .ok true := by
    simp [match_item, preprocess_to_list, sortIfList, pySorted, pyInsert,
      check_regex, miLeafRest, strWrap, pyEq, pyEqList]
  have hZ1D : match_item (.list [.str ['z']]) (.list [.str ['z']])
      sMATCHD = .ok true := by
    simp [match_item, preprocess_to_list, sortIfList, pySorted, pyInsert,
      check_regex, miLeafRest, strWrap, pyEq, pyEqList]
  have hZ2M : match_item (.list [.str ['z']]) (.list [.str ['z'], .str ['w']])
      sMATCH = .ok true := by
    simp [match_item, preprocess_to_list, sortIfList, pySorted, pyInsert, pyLt,
      charListLt, check_regex, miLeafRest, strWrap, pyEq, pyEqList, process_lists,
      plOuter, plInner, pairTest, plCheck, sMATCH, sMATCHD]
  have hZ2D : match_item (.list [.str ['z']]) (.list [.str ['z'], .str ['w']])
      sMATCHD = .ok false := by
    simp [match_item, preprocess_to_list, sortIfList, pySorted, pyInsert, pyLt,
      charListLt, check_regex, miLeafRest, strWrap, pyEq, pyEqList, process_lists,
      plOuter, plInner, pairTest, plCheck, sMATCH, sMATCHD]
  have hrkD : miRegexKeys ⟨['.'], [RPiece.once .dot]⟩ (.list [.str ['z']])
      [(['a'], .list [.str ['z']]), (['b'], .list [.str ['z'], .str ['w']])]
      sMATCHD = .ok 1 := by
    simp [miRegexKeys, ha, hb, hZ1D, hZ2D]
  have hrkM : miRegexKeys ⟨['.'], [RPiece.once .dot]⟩ (.list [.str ['z']])
      [(['a'], .list [.str ['z']]), (['b'], .list [.str ['z'], .str ['w']])]
      sMATCH = .ok 2 := by
    simp [miRegexKeys, ha, hb, hZ1T, hZ2M]
  have hentD : miEntries [(['r', '\'', '.', '\'', 'X'], .list [.str ['z']])]
      [(['a'], .list [.str ['z']]), (['b'], .list [.str ['z'], .str ['w']])]
      sMATCHD = .ok 1 := by
    simp [miEntries, hre, hrkD, alookup]
  have hentM : miEntries [(['r', '\'', '.', '\'', 'X'], .list [.str ['z']])]
      [(['a'], .list [.str ['z']]), (['b'], .list [.str ['z'], .str ['w']])]
      sMATCH = .ok 2 := by
    simp [miEntries, hre, hrkM, alookup]
  constructor
  · rw [match_item, hentD]
    simp
  · rw [match_item, hentM]
    simp

/-- C2, amended.  For rule fragments whose mappings use no regex-literal
keys, MATCH$ really is at least as strict as MATCH (`matches$ ⟹ matches`),
and the strictness is proper: `["a"]` against `["a", "b"]` matches under
MATCH but not under MATCH$.  With regex-literal keys the implication fails
(see the counterexample). -/
theorem C2_amended :
    (∀ (rc ac : PyVal), noRegexKeys rc = true →
      match_item rc ac sMATCHD = .ok true → match_item rc ac sMATCH = .ok true)
    ∧ match_item (.list [.str ['a']]) (.list [.str ['a'], .str ['b']]) sMATCH = .ok true
    ∧ match_item (.list [.str ['a']]) (.list [.str ['a'], .str ['b']]) sMATCHD = .ok false := by
  refine ⟨?_, ?_, ?_⟩
  · intro rc ac hnrk h
    obtain ⟨b', hb', himp⟩ := match_mono_aux (sizeOf rc) rc (Nat.le_refl _) hnrk ac true h
    rw [himp rfl] at hb'
    exact hb'
  · simp [match_item, preprocess_to_list, sortIfList, pySorted, pyInsert, pyLt,
      charListLt, check_regex, miLeafRest, strWrap, pyEq, pyEqList, process_lists,
      plOuter, plInner, pairTest, plCheck, sMATCH, sMATCHD]
  · simp [match_item, preprocess_to_list, sortIfList, pySorted, pyInsert, pyLt,
      charListLt, check_regex, miLeafRest, strWrap, pyEq, pyEqList, process_lists,
      plOuter, plInner, pairTest, plCheck, sMATCH, sMATCHD]

/-- C2, witness: the implication applied to the regex-free rule
`\x7b"k": "z"\x7d` against a larger context mapping, where MATCH$ holds at
the key level. -/
theorem C2_witness :
    match_item (.dict [(['k'], .str ['z'])])
      (.dict [(['k'], .str ['z']), (['x'], .str ['y'])]) sMATCH = .ok true := by
  refine C2_amended.1 _ _ ?_ ?_
  · simp [noRegexKeys, nrkEntries, check_regex]
  · simp [match_item, miEntries, check_regex, alookup, preprocess_to_list, sortIfList,
      miLeafRest, strWrap, pyEq]

end WazuhRBAC
